import Mathlib

/-!
Verification of the caching and resolution core of the Research-Dex client
(`src/pokedex/src/App.jsx`, `src/pokedex/src/offlineDB.js`).

The JavaScript source is shallowly embedded: JSON payloads become the `Json`
inductive, the persistent IndexedDB store and the module-level `Map` caches
become association lists, the network becomes an explicit oracle
(`NetResult`-valued function), and each `async` function becomes a pure
function threading the state and returning the list of network requests it
performed.  JavaScript truthiness is modelled by `truthy`.
-/

namespace ResearchDex

/-- JSON values, as decoded by `res.json()`.  Numbers are restricted to
integers, which covers every field the verified code inspects
(levels, generation numbers, gender codes, stat comparisons). -/
inductive Json where
  | null : Json
  | bool : Bool → Json
  | num : Int → Json
  | str : String → Json
  | arr : List Json → Json
  | obj : List (String × Json) → Json

/-- JavaScript truthiness of a JSON value (`if (x)`, `!!x`, `x || y`). -/
def truthy : Json → Bool
  | .null => false
  | .bool b => b
  | .num n => n != 0
  | .str s => s != ""
  | .arr _ => true
  | .obj _ => true

/-- Lookup in an association list; models `Map.get` / keyed object access. -/
def alookup {κ α : Type} [DecidableEq κ] (k : κ) : List (κ × α) → Option α
  | [] => none
  | (k', v) :: rest => if k' = k then some v else alookup k rest

/-- Insertion into an association list; models `Map.set` / `db.put`
(the new binding shadows any previous one). -/
def aset {κ α : Type} [DecidableEq κ] (k : κ) (v : α) (m : List (κ × α)) :
    List (κ × α) :=
  (k, v) :: m

/-- Outcome of one `fetch(url)` followed by the `res.ok` check and
`res.json()`: a decoded body, a non-success HTTP status, or a thrown
error (network failure or malformed body). -/
inductive NetResult where
  | success : Json → NetResult
  | failStatus : NetResult
  | failThrow : NetResult

/-- The network/parse branch of `fetchJsonOrNull` (the `try` block after the
cache miss): on success the decoded body is written back to the persistent
store under the same key; every failure is swallowed into `null`.
Returns (value, persistent store, network requests performed). -/
def fetchFresh {κ : Type} [DecidableEq κ] (world : κ → NetResult) (url : κ)
    (store : List (κ × Json)) : Json × List (κ × Json) × List κ :=
  match world url with
  | .success data => (data, aset url data store, [url])
  | .failStatus => (Json.null, store, [url])
  | .failThrow => (Json.null, store, [url])

/-- `fetchJsonOrNull` from App.jsx: `const cached = await getFromCache(url);
if (cached) return cached;` then the guarded network fetch.  Note the
truthiness check on the cached value.  The function is total: no error
reaches the caller (the `catch` branch is the `failThrow` case). -/
def fetchJsonOrNull {κ : Type} [DecidableEq κ] (world : κ → NetResult) (url : κ)
    (store : List (κ × Json)) : Json × List (κ × Json) × List κ :=
  match alookup url store with
  | some cached =>
      if truthy cached then (cached, store, [])
      else fetchFresh world url store
  | none => fetchFresh world url store

/-- Claim C1 as stated: a cache hit (the key is present in the persistent
store) returns the cached value verbatim, with no network call and no state
change.  (Refuted below: the source checks the truthiness of the cached
value, not its presence.) -/
def C1_hit_as_stated : Prop :=
  ∀ (world : String → NetResult) (url : String) (store : List (String × Json))
    (v : Json), alookup url store = some v →
    fetchJsonOrNull world url store = (v, store, [])

/-! ### JSON field access (optional chaining) -/

/-- Optional-chaining field access `x?.f` on a JSON value. -/
def jget : Option Json → String → Option Json
  | some (Json.obj fields), k => alookup k fields
  | _, _ => none

/-- Projection of an optional JSON value to a string; a non-string value is
treated as absent (the code only ever feeds such values to string
operations, where a non-string either is falsy-checked away or throws into
a `catch` that yields the same fallback). -/
def jstrOpt : Option Json → Option String
  | some (Json.str s) => some s
  | _ => none

/-- JavaScript truthiness of a possibly-absent JSON value. -/
def jtruthy : Option Json → Bool
  | some j => truthy j
  | none => false

/-! ### String helpers from App.jsx -/

/-- Remove the first occurrence of `pat` in a character list, replacing it
with `repl`; models JavaScript `String.prototype.replace` with a string
pattern (which replaces only the first occurrence). -/
def replaceFirst (pat repl : List Char) : List Char → List Char
  | [] => []
  | c :: rest =>
      if pat.isPrefixOf (c :: rest) then repl ++ (c :: rest).drop pat.length
      else c :: replaceFirst pat repl rest

/-- `s.replace(pat, repl)` on strings (first occurrence only). -/
def strReplaceFirst (s pat repl : String) : String :=
  ⟨replaceFirst pat.toList repl.toList s.toList⟩

/-- Substring test on character lists. -/
def infixCheck (sub : List Char) : List Char → Bool
  | [] => sub.isEmpty
  | c :: rest => sub.isPrefixOf (c :: rest) || infixCheck sub rest

/-- `s.includes(sub)` from JavaScript. -/
def strIncludes (s sub : String) : Bool :=
  infixCheck sub.toList s.toList

/-- `titleCaseSlug` from App.jsx: split on hyphens, capitalize the first
character of each word, join with spaces. -/
def titleCaseSlug (v : String) : String :=
  if v = "" then ""
  else
    String.intercalate " "
      ((v.splitOn "-").map (fun w =>
        match w.toList with
        | [] => w
        | c :: rest => ⟨c.toUpper :: rest⟩))

/-! ### Generation resolver (claim C3) -/

/-- The roman-numeral table inside `genSlugToNumber`. -/
def romanGenMap : List (String × Nat) :=
  [("i", 1), ("ii", 2), ("iii", 3), ("iv", 4), ("v", 5), ("vi", 6),
   ("vii", 7), ("viii", 8), ("ix", 9)]

/-- `genSlugToNumber` from App.jsx: strip the first occurrence of
`"generation-"`, look the rest up in the roman table, default to the
999 sentinel.  The argument is optional (`genSlug || ""`). -/
def genSlugToNumber (genSlug : Option String) : Nat :=
  let roman := strReplaceFirst (genSlug.getD "") "generation-" ""
  (alookup roman romanGenMap).getD 999

/-- `getVersionGroupGenNumber` from App.jsx.  State is the
`versionGroupGenCache` map; `w` is the version-group endpoint
(`res.ok`-checked fetch).  A falsy (empty) name short-circuits to 999
before the cache is consulted or written.  Returns
(generation number, cache, network requests performed). -/
def getVersionGroupGenNumber (w : String → NetResult) (vgName : String)
    (cache : List (String × Nat)) : Nat × List (String × Nat) × List String :=
  if vgName = "" then (999, cache, [])
  else
    match alookup vgName cache with
    | some g => (g, cache, [])
    | none =>
        match w vgName with
        | .failStatus => (999, aset vgName 999 cache, [vgName])
        | .failThrow => (999, aset vgName 999 cache, [vgName])
        | .success data =>
            let genSlug := jstrOpt (jget (jget (some data) "generation") "name")
            let g := genSlugToNumber genSlug
            (g, aset vgName g cache, [vgName])

/-- Outcome of a `fetch` whose response is fed straight to `res.json()`
with no `res.ok` check (`getVersionGenNumber` does this twice): either a
parsed body or a throw (network failure, or an unparsable non-success
body). -/
inductive JsonFetch where
  | parsed : Json → JsonFetch
  | throws : JsonFetch

/-- The `{ genNum, versionGroup }` record cached by `getVersionGenNumber`. -/
structure VersionMeta where
  genNum : Nat
  versionGroup : String
deriving DecidableEq

/-- `getVersionGenNumber` from App.jsx: two chained lookups
(version → version-group → generation) with every outcome — including the
999 failure fallback — written to `versionGenCache`. `wv` is the version
endpoint, `wvg` the version-group endpoint. -/
def getVersionGenNumber (wv wvg : String → JsonFetch) (versionName : String)
    (cache : List (String × VersionMeta)) :
    VersionMeta × List (String × VersionMeta) × List String :=
  match alookup versionName cache with
  | some m => (m, cache, [])
  | none =>
      match wv versionName with
      | .throws =>
          (⟨999, ""⟩, aset versionName ⟨999, ""⟩ cache, [versionName])
      | .parsed vData =>
          match jstrOpt (jget (jget (some vData) "version_group") "name") with
          | none =>
              (⟨999, ""⟩, aset versionName ⟨999, ""⟩ cache, [versionName])
          | some vgName =>
              if vgName = "" then
                (⟨999, ""⟩, aset versionName ⟨999, ""⟩ cache, [versionName])
              else
                match wvg vgName with
                | .throws =>
                    (⟨999, ""⟩, aset versionName ⟨999, ""⟩ cache,
                     [versionName, vgName])
                | .parsed vgData =>
                    let g := genSlugToNumber
                      (jstrOpt (jget (jget (some vgData) "generation") "name"))
                    (⟨g, vgName⟩, aset versionName ⟨g, vgName⟩ cache,
                     [versionName, vgName])

/-! ### Name/variant resolver (claims C2 and C10) -/

/-- Request keys used by the resolver.  The source builds URL strings
`https://pokeapi.co/api/v2/pokemon-species/NAME` and
`https://pokeapi.co/api/v2/pokemon/NAME`; since the two prefixes differ,
URL construction is injective and is modelled by this tagged key type. -/
inductive ApiUrl where
  | species : String → ApiUrl
  | pokemon : String → ApiUrl
deriving DecidableEq

/-- `regionSuffixForDex` from App.jsx. -/
def regionSuffixForDex (dexKey : String) : Option String :=
  if strIncludes dexKey "alola" then some "alola"
  else if dexKey = "galar" then some "galar"
  else if dexKey = "paldea" then some "paldea"
  else none

/-- The state threaded through the resolver: the persistent store plus the
three in-memory maps `speciesDefaultPokemonCache`, `pokemonExistsCache`
and `pokemonCache`. -/
structure SmartSt where
  store : List (ApiUrl × Json)
  speciesDefaultPokemonCache : List (String × String)
  pokemonExistsCache : List (String × Bool)
  pokemonCache : List (String × Json)

/-- The state with every cache empty (process start). -/
def emptySmart : SmartSt := ⟨[], [], [], []⟩

/-- `pokemonExists` from App.jsx: memoized truthiness of a
`fetchJsonOrNull` on the pokemon endpoint; on a fresh successful probe the
payload is also stored in `pokemonCache` (only if not already present). -/
def pokemonExists (w : ApiUrl → NetResult) (pokemonName : String)
    (st : SmartSt) : Bool × SmartSt × List ApiUrl :=
  match alookup pokemonName st.pokemonExistsCache with
  | some b => (b, st, [])
  | none =>
      let r := fetchJsonOrNull w (ApiUrl.pokemon pokemonName) st.store
      let ok := truthy r.1
      ( ok,
        { st with
          store := r.2.1,
          pokemonExistsCache := aset pokemonName ok st.pokemonExistsCache,
          pokemonCache :=
            if ok && (alookup pokemonName st.pokemonCache).isNone then
              aset pokemonName r.1 st.pokemonCache
            else st.pokemonCache },
        r.2.2 )

/-- The projection
`sData?.varieties?.find((v) => v.is_default)?.pokemon?.name || speciesName`
from `getDefaultPokemonNameFromSpecies`. -/
def defaultVarietyName (sData : Json) (speciesName : String) : String :=
  match jget (some sData) "varieties" with
  | some (Json.arr vs) =>
      match vs.find? (fun v => jtruthy (jget (some v) "is_default")) with
      | some v =>
          match jstrOpt (jget (jget (some v) "pokemon") "name") with
          | some n => if n = "" then speciesName else n
          | none => speciesName
      | none => speciesName
  | _ => speciesName

/-- `getDefaultPokemonNameFromSpecies` from App.jsx: memoized species →
default-variety-name lookup through `fetchJsonOrNull`. -/
def getDefaultPokemonNameFromSpecies (w : ApiUrl → NetResult)
    (speciesName : String) (st : SmartSt) : String × SmartSt × List ApiUrl :=
  match alookup speciesName st.speciesDefaultPokemonCache with
  | some d => (d, st, [])
  | none =>
      let r := fetchJsonOrNull w (ApiUrl.species speciesName) st.store
      let defName := defaultVarietyName r.1 speciesName
      ( defName,
        { st with
          store := r.2.1,
          speciesDefaultPokemonCache :=
            aset speciesName defName st.speciesDefaultPokemonCache },
        r.2.2 )

/-- A JavaScript return value of `getPokemonDataSmart`: a pokemon payload,
`undefined` (a `Map.get` miss), or the final `return null`. -/
inductive JsRes where
  | val : Json → JsRes
  | undef : JsRes
  | nullRes : JsRes

/-- `pokemonCache.get(name)`: the stored payload or `undefined`. -/
def mapGet (m : List (String × Json)) (k : String) : JsRes :=
  match alookup k m with
  | some v => JsRes.val v
  | none => JsRes.undef

/-- The tail of `getPokemonDataSmart` after the optional regional probe:
`if (await pokemonExists(defaultPokemon)) return pokemonCache.get(defaultPokemon);
if (await pokemonExists(speciesName)) return pokemonCache.get(speciesName);
return null;` (factored out because it is reached from two branches). -/
def smartRest (w : ApiUrl → NetResult) (speciesName defaultPokemon : String)
    (st : SmartSt) (tr : List ApiUrl) : JsRes × SmartSt × List ApiUrl :=
  let r2 := pokemonExists w defaultPokemon st
  if r2.1 then (mapGet r2.2.1.pokemonCache defaultPokemon, r2.2.1, tr ++ r2.2.2)
  else
    let r3 := pokemonExists w speciesName r2.2.1
    if r3.1 then
      (mapGet r3.2.1.pokemonCache speciesName, r3.2.1, tr ++ r2.2.2 ++ r3.2.2)
    else (JsRes.nullRes, r3.2.1, tr ++ r2.2.2 ++ r3.2.2)

/-- `getPokemonDataSmart` from App.jsx: resolve the default variety, probe
`"<default>-<suffix>"` when the dex tab has a regional suffix, then fall
back to the default variety and finally the species name itself. -/
def getPokemonDataSmart (w : ApiUrl → NetResult) (speciesName dexKey : String)
    (st : SmartSt) : JsRes × SmartSt × List ApiUrl :=
  let r0 := getDefaultPokemonNameFromSpecies w speciesName st
  match regionSuffixForDex dexKey with
  | some sfx =>
      let candidate := r0.1 ++ "-" ++ sfx
      let r1 := pokemonExists w candidate r0.2.1
      if r1.1 then
        (mapGet r1.2.1.pokemonCache candidate, r1.2.1, r0.2.2 ++ r1.2.2)
      else smartRest w speciesName r0.1 r1.2.1 (r0.2.2 ++ r1.2.2)
  | none => smartRest w speciesName r0.1 r0.2.1 r0.2.2

/-- The guarded in-memory cache write `if (data) pokemonCache.set(name, data)`
used at the other `pokemonCache` call sites of App.jsx
(`getSpriteForPokemonName` and the two modal loaders). -/
def setPokemonIfTruthy (n : String) (data : Json) (st : SmartSt) : SmartSt :=
  if truthy data then { st with pokemonCache := aset n data st.pokemonCache }
  else st

/-! #### Spec-level view of the resolver -/

/-- What the network says a fetch of `u` ultimately yields through
`fetchJsonOrNull`: the decoded payload on success, `null` otherwise. -/
def jsonUp (w : ApiUrl → NetResult) (u : ApiUrl) : Json :=
  match w u with
  | .success d => d
  | _ => Json.null

/-- Upstream existence of a pokemon name: the probe payload is truthy. -/
def existsUp (w : ApiUrl → NetResult) (n : String) : Bool :=
  truthy (jsonUp w (ApiUrl.pokemon n))

/-- Upstream default-variety name of a species. -/
def defaultUp (w : ApiUrl → NetResult) (s : String) : String :=
  defaultVarietyName (jsonUp w (ApiUrl.species s)) s

/-- The claimed fallback order of C2, steps 2–4: default variety if it
exists, else the species name itself, else null. -/
def resolveFallback (w : ApiUrl → NetResult) (speciesName d : String) : JsRes :=
  if existsUp w d then JsRes.val (jsonUp w (ApiUrl.pokemon d))
  else if existsUp w speciesName then
    JsRes.val (jsonUp w (ApiUrl.pokemon speciesName))
  else JsRes.nullRes

/-- Claim C2's statement of the resolution, purely in terms of the upstream
world: regional candidate first when the context has a suffix, then the
fallback chain. -/
def resolveSpecLevel (w : ApiUrl → NetResult) (speciesName dexKey : String) :
    JsRes :=
  let d := defaultUp w speciesName
  match regionSuffixForDex dexKey with
  | some sfx =>
      if existsUp w (d ++ "-" ++ sfx) then
        JsRes.val (jsonUp w (ApiUrl.pokemon (d ++ "-" ++ sfx)))
      else resolveFallback w speciesName d
  | none => resolveFallback w speciesName d

/-- Consistency of a resolver state with the upstream world: every cached
fact agrees with what the network would say.  The empty state is
consistent, and every operation preserves consistency. -/
def Consistent (w : ApiUrl → NetResult) (st : SmartSt) : Prop :=
  (∀ u j, alookup u st.store = some j → truthy j = true →
    w u = NetResult.success j) ∧
  (∀ s d, alookup s st.speciesDefaultPokemonCache = some d →
    d = defaultUp w s) ∧
  (∀ n b, alookup n st.pokemonExistsCache = some b → b = existsUp w n) ∧
  (∀ n j, alookup n st.pokemonCache = some j →
    j = jsonUp w (ApiUrl.pokemon n) ∧ truthy j = true) ∧
  (∀ n, alookup n st.pokemonExistsCache = some true →
    (alookup n st.pokemonCache).isSome = true)

/-- The C10 invariant, world-free: every payload in `pokemonCache` is
truthy (non-null), and every name the existence cache maps to `true` has
an entry in `pokemonCache`. -/
def PokeInv (st : SmartSt) : Prop :=
  (∀ n j, alookup n st.pokemonCache = some j → truthy j = true) ∧
  (∀ n, alookup n st.pokemonExistsCache = some true →
    (alookup n st.pokemonCache).isSome = true)

/-- Concrete pikachu payload for the C2 end-to-end scenario. -/
def pikaJson : Json := Json.obj [("name", Json.str "pikachu")]

/-- Concrete upstream world for the C2 end-to-end scenario: the species
`"pikachu"` whose default variety is `"pikachu"`; the pokemon `"pikachu"`
exists; nothing else (in particular `"pikachu-alola"`) does. -/
def pikaWorld : ApiUrl → NetResult := fun u =>
  match u with
  | .species "pikachu" =>
      NetResult.success (Json.obj
        [("varieties", Json.arr
          [Json.obj [("is_default", Json.bool true),
                     ("pokemon", Json.obj [("name", Json.str "pikachu")])]])])
  | .pokemon "pikachu" => NetResult.success pikaJson
  | _ => NetResult.failStatus

/-! ### Movepool building (claims C4 and C5) -/

/-- One entry of a move's `version_group_details` array, projected to the
fields `buildMoves` reads: `move_learn_method?.name`, `level_learned_at`
(null becomes `none`), `version_group?.name`. -/
structure VGDetail where
  move_learn_method : Option String
  level_learned_at : Option Nat
  version_group : Option String
deriving DecidableEq

/-- The body of the representative-selection loop in `buildMoves`:
`if (d.move_learn_method?.name === "level-up") { if (best… !== "level-up")
best = d; else if ((d.level_learned_at ?? 999) < (best.level_learned_at ??
999)) best = d; }`. -/
def betterDetail (best d : VGDetail) : VGDetail :=
  if d.move_learn_method = some "level-up" then
    if best.move_learn_method ≠ some "level-up" then d
    else if d.level_learned_at.getD 999 < best.level_learned_at.getD 999 then d
    else best
  else best

/-- `let best = matching[0]; for (const d of matching) …` — the selected
representative detail of a non-empty `matching` list. -/
def pickBestDetail : List VGDetail → Option VGDetail
  | [] => none
  | h :: t => some ((h :: t).foldl betterDetail h)

/-- Is a detail a level-up detail? -/
def isLU (d : VGDetail) : Bool := d.move_learn_method = some "level-up"

/-- The effective level used for the tie-break (`?? 999`). -/
def effLevel (d : VGDetail) : Nat := d.level_learned_at.getD 999

/-- One element of `pokemon.moves`, projected to `m?.move?.name` and
`m.version_group_details`. -/
structure MoveEntry where
  moveName : Option String
  version_group_details : List VGDetail
deriving DecidableEq

/-- A record pushed into a bucket:
`{ name, level: best.level_learned_at ?? null, vg: best.version_group?.name || "" }`. -/
structure MoveRec where
  name : String
  level : Option Nat
  vg : String
deriving DecidableEq

/-- The five buckets of the movepool output. -/
structure MoveBuckets where
  levelUp : List MoveRec
  machine : List MoveRec
  tutor : List MoveRec
  egg : List MoveRec
  other : List MoveRec
deriving DecidableEq

def emptyBuckets : MoveBuckets := ⟨[], [], [], [], []⟩

/-- Classification by the representative's learn-method name
(the `method === "level-up" ? … : …` chain) followed by `out[bucket].push`. -/
def pushBucket (out : MoveBuckets) (method : String) (r : MoveRec) :
    MoveBuckets :=
  if method = "level-up" then { out with levelUp := out.levelUp ++ [r] }
  else if method = "machine" then { out with machine := out.machine ++ [r] }
  else if method = "tutor" then { out with tutor := out.tutor ++ [r] }
  else if method = "egg" then { out with egg := out.egg ++ [r] }
  else { out with other := out.other ++ [r] }

/-- Does a move pass the name filter `if (q && !moveName.includes(q))
continue`?  (`q` is the already trimmed and lower-cased search string.) -/
def passesNameFilter (q moveName : String) : Bool :=
  !(q != "" && !strIncludes moveName q)

/-- The details that match the generation filter.  `genOf` abstracts the
memoized `getVersionGroupGenNumber` resolution (a pure function of the
upstream world; see claim C3): each detail's `version_group?.name` is
resolved and compared with the requested generation. -/
def matchingDetails (genOf : Option String → Nat) (genWanted : Option Nat)
    (m : MoveEntry) : List VGDetail :=
  match genWanted with
  | none => m.version_group_details
  | some g => m.version_group_details.filter (fun d => genOf d.version_group = g)

/-- `method = best.move_learn_method?.name || "other"`. -/
def methodOf (best : VGDetail) : String :=
  match best.move_learn_method with
  | some s => if s = "" then "other" else s
  | none => "other"

/-- The per-move body of the `for (const m of pokemon.moves)` loop in
`buildMoves`.  The first guard `if (!moveName) continue` skips a falsy
name: both an absent one (`none`) and the empty string. -/
def moveStep (genOf : Option String → Nat) (genWanted : Option Nat)
    (q : String) (out : MoveBuckets) (m : MoveEntry) : MoveBuckets :=
  match m.moveName with
  | none => out
  | some moveName =>
      if moveName = "" then out
      else if passesNameFilter q moveName = false then out
      else
        match matchingDetails genOf genWanted m with
        | [] => out
        | h :: t =>
            let best := (h :: t).foldl betterDetail h
            pushBucket out (methodOf best)
              ⟨moveName, best.level_learned_at, best.version_group.getD ""⟩

/-- Ordering of the level-up bucket: level ascending (null as 999), then
name; models the sort comparator `la - lb` / `localeCompare`. -/
def levelUpLE (a b : MoveRec) : Prop :=
  a.level.getD 999 < b.level.getD 999 ∨
    (a.level.getD 999 = b.level.getD 999 ∧ a.name ≤ b.name)

instance : DecidableRel levelUpLE := fun a b =>
  inferInstanceAs (Decidable (a.level.getD 999 < b.level.getD 999 ∨
    (a.level.getD 999 = b.level.getD 999 ∧ a.name ≤ b.name)))

/-- Alphabetical ordering of the remaining buckets. -/
def nameLE (a b : MoveRec) : Prop := a.name ≤ b.name

instance : DecidableRel nameLE := fun a b =>
  inferInstanceAs (Decidable (a.name ≤ b.name))

/-- `buildMoves` from App.jsx: the classification loop followed by the five
per-bucket sorts (the JavaScript `Array.prototype.sort` with a consistent
comparator is modelled by insertion sort with the corresponding total
preorder). -/
def buildMoves (genOf : Option String → Nat) (genWanted : Option Nat)
    (q : String) (moves : List MoveEntry) : MoveBuckets :=
  let out := moves.foldl (moveStep genOf genWanted q) emptyBuckets
  { levelUp := List.insertionSort levelUpLE out.levelUp,
    machine := List.insertionSort nameLE out.machine,
    tutor := List.insertionSort nameLE out.tutor,
    egg := List.insertionSort nameLE out.egg,
    other := List.insertionSort nameLE out.other }

/-- Number of records named `nm` in a bucket. -/
def countRec (l : List MoveRec) (nm : String) : Nat :=
  (l.filter (fun r => r.name = nm)).length

/-- Number of records named `nm` across all five buckets. -/
def countBuckets (b : MoveBuckets) (nm : String) : Nat :=
  countRec b.levelUp nm + countRec b.machine nm + countRec b.tutor nm +
    countRec b.egg nm + countRec b.other nm

/-! ### Variant/form catalog (claim C6) -/

/-- `isRegionalVariant` from App.jsx. -/
def isRegionalVariant (pokemonName : String) : Bool :=
  strIncludes pokemonName "-alola" || strIncludes pokemonName "-galar" ||
    strIncludes pokemonName "-hisui" || strIncludes pokemonName "-paldea"

/-- `isMega` from App.jsx. -/
def isMega (pokemonName : String) : Bool := strIncludes pokemonName "-mega"

/-- `isGmax` from App.jsx. -/
def isGmax (pokemonName : String) : Bool := strIncludes pokemonName "-gmax"

/-- `prettyLabel` from App.jsx. -/
def prettyLabel (baseName pokemonName : String) : String :=
  if pokemonName = baseName then "Base"
  else
    let tail0 :=
      if (baseName ++ "-").isPrefixOf pokemonName then
        pokemonName.drop (baseName.length + 1)
      else pokemonName
    if tail0 = "gmax" then "Gigantamax"
    else if tail0 = "mega" then "Mega"
    else
      titleCaseSlug
        (strReplaceFirst (strReplaceFirst tail0 "mega-x" "Mega X")
          "mega-y" "Mega Y")

/-- One catalog entry `{ label, pokemonName }`. -/
structure VFEntry where
  label : String
  pokemonName : String
deriving DecidableEq

/-- The four buckets built by the variant/form list builder. -/
structure VFCatalog where
  variants : List VFEntry
  megas : List VFEntry
  gmax : List VFEntry
  others : List VFEntry

/-- `Array.from(new Set([...varietiesRaw, ...formNamesRaw]))`: JavaScript
`Set` keeps first occurrences in insertion order. -/
def dedupFirst (seen : List String) : List String → List String
  | [] => []
  | x :: xs =>
      if x ∈ seen then dedupFirst seen xs
      else x :: dedupFirst (x :: seen) xs

/-- The classification loop of the variant/form list builder:
skip candidates that fail the existence probe, then route by
base-or-regional / mega / gmax / other.  `existsP` abstracts the memoized
`pokemonExists` probe (a pure function of the upstream world, claim C10). -/
def classifyStep (existsP : String → Bool) (baseName : String)
    (cat : VFCatalog) (pnm : String) : VFCatalog :=
  if existsP pnm = false then cat
  else
    let label := prettyLabel baseName pnm
    if pnm = baseName || isRegionalVariant pnm then
      { cat with variants := cat.variants ++ [⟨label, pnm⟩] }
    else if isMega pnm then { cat with megas := cat.megas ++ [⟨label, pnm⟩] }
    else if isGmax pnm then { cat with gmax := cat.gmax ++ [⟨label, pnm⟩] }
    else { cat with others := cat.others ++ [⟨label, pnm⟩] }

def classifyCandidates (existsP : String → Bool) (baseName : String)
    (cands : List String) : VFCatalog :=
  cands.foldl (classifyStep existsP baseName) ⟨[], [], [], []⟩

/-- A three-way string comparison standing in for
`String.prototype.localeCompare` (modelled as lexicographic order). -/
def localeCmp (x y : String) : Int :=
  if x < y then -1 else if x = y then 0 else 1

/-- The variant-bucket sort comparator from App.jsx: base first, then
non-regional before regional, then by label. -/
def variantCmp (baseName : String) (a b : VFEntry) : Int :=
  if a.pokemonName = baseName ∧ b.pokemonName ≠ baseName then -1
  else if b.pokemonName = baseName ∧ a.pokemonName ≠ baseName then 1
  else if isRegionalVariant a.pokemonName ≠ isRegionalVariant b.pokemonName then
    (if isRegionalVariant a.pokemonName then 1 else -1)
  else localeCmp a.label b.label

/-- The total preorder induced by the comparator (`cmp(a,b) <= 0`). -/
def variantLE (baseName : String) (a b : VFEntry) : Prop :=
  variantCmp baseName a b ≤ 0

instance : ∀ baseName, DecidableRel (variantLE baseName) := fun bn a b =>
  inferInstanceAs (Decidable (variantCmp bn a b ≤ 0))

/-- Label order used for the mega/gmax/other buckets. -/
def labelLE (a b : VFEntry) : Prop := a.label ≤ b.label

instance : DecidableRel labelLE := fun a b =>
  inferInstanceAs (Decidable (a.label ≤ b.label))

/-- The variant/form list builder from the details modal (App.jsx lines
1104–1143): dedup the candidate names, classify the existing ones, prepend
the synthetic `{label:"Base", pokemonName: baseName}` entry when no variant
entry equals the base name, and sort each bucket. -/
def buildVariantCatalog (existsP : String → Bool) (baseName : String)
    (varietiesRaw formNamesRaw : List String) : VFCatalog :=
  let allCandidates := dedupFirst [] (varietiesRaw ++ formNamesRaw)
  let cat := classifyCandidates existsP baseName allCandidates
  let variants0 :=
    if cat.variants.any (fun o => o.pokemonName = baseName) then cat.variants
    else ⟨"Base", baseName⟩ :: cat.variants
  { variants := List.insertionSort (variantLE baseName) variants0,
    megas := List.insertionSort labelLE cat.megas,
    gmax := List.insertionSort labelLE cat.gmax,
    others := List.insertionSort labelLE cat.others }

/-- Rank of an entry under the variant comparator: base entries sort before
non-regional entries, which sort before regional entries. -/
def vrank (baseName : String) (e : VFEntry) : Nat :=
  if e.pokemonName = baseName then 0
  else if isRegionalVariant e.pokemonName then 2
  else 1

/-! ### Evolution graph builder (claim C7) -/

/-- One `evolution_details` record, projected to the fields
`formatEvolutionDetail` reads.  Name references (`location?.name` etc.)
are flattened to their name strings. -/
structure EvoDetail where
  trigger : Option String
  min_level : Option Int
  min_happiness : Option Int
  min_affection : Option Int
  min_beauty : Option Int
  time_of_day : Option String
  location : Option String
  known_move : Option String
  known_move_type : Option String
  held_item : Option String
  party_species : Option String
  party_type : Option String
  trade_species : Option String
  needs_overworld_rain : Bool
  turn_upside_down : Bool
  gender : Option Int
  relative_physical_stats : Option Int
  item : Option String
deriving DecidableEq

/-- A detail with every field absent. -/
def emptyEvoDetail : EvoDetail :=
  ⟨none, none, none, none, none, none, none, none, none, none, none, none,
   none, false, false, none, none, none⟩

/-- The `parts` array accumulated by `formatEvolutionDetail` (in the fixed
field order of the source).  Note the `gender` branch can push an empty
string, which the final `filter(Boolean)` removes but which still counts
for the `parts.length === 0` test. -/
def evoParts (d : EvoDetail) : List String :=
  (match d.min_level with
   | some n => ["Level " ++ toString n] | none => []) ++
  (match d.min_happiness with
   | some n => ["Friendship " ++ toString n ++ "+"] | none => []) ++
  (match d.min_affection with
   | some n => ["Affection " ++ toString n ++ "+"] | none => []) ++
  (match d.min_beauty with
   | some n => ["Beauty " ++ toString n ++ "+"] | none => []) ++
  (match d.time_of_day with
   | some s => if s = "" then [] else ["Time: " ++ titleCaseSlug s]
   | none => []) ++
  (match d.location with
   | some s => if s = "" then [] else ["At " ++ titleCaseSlug s]
   | none => []) ++
  (match d.known_move with
   | some s => if s = "" then [] else ["Knows " ++ titleCaseSlug s]
   | none => []) ++
  (match d.known_move_type with
   | some s => if s = "" then [] else ["Knows a " ++ titleCaseSlug s ++ " move"]
   | none => []) ++
  (match d.held_item with
   | some s => if s = "" then [] else ["Hold " ++ titleCaseSlug s]
   | none => []) ++
  (match d.party_species with
   | some s => if s = "" then [] else ["Party: " ++ titleCaseSlug s]
   | none => []) ++
  (match d.party_type with
   | some s => if s = "" then [] else ["Party Type: " ++ titleCaseSlug s]
   | none => []) ++
  (match d.trade_species with
   | some s => if s = "" then [] else ["Trade for " ++ titleCaseSlug s]
   | none => []) ++
  (if d.needs_overworld_rain then ["Overworld Rain"] else []) ++
  (if d.turn_upside_down then ["Turn device upside down"] else []) ++
  (match d.gender with
   | some g => [if g = 1 then "Female" else if g = 2 then "Male" else ""]
   | none => []) ++
  (match d.relative_physical_stats with
   | some r =>
      (if r = 1 then ["Atk > Def"] else []) ++
      (if r = 0 then ["Atk = Def"] else []) ++
      (if r = -1 then ["Atk < Def"] else [])
   | none => []) ++
  (match d.item with
   | some s => if s = "" then [] else ["Use " ++ titleCaseSlug s]
   | none => [])

/-- `formatEvolutionDetail` from App.jsx: if no part was accumulated and a
trigger name is present, return its canonical phrase; otherwise join the
non-empty parts with the bullet separator. -/
def formatEvolutionDetail (d : EvoDetail) : String :=
  let parts := evoParts d
  let joined := String.intercalate " • " (parts.filter (fun s => s != ""))
  match d.trigger with
  | some t =>
      if parts.length = 0 ∧ t ≠ "" then
        if t = "trade" then "Trade"
        else if t = "use-item" then "Use Item"
        else if t = "level-up" then "Level Up"
        else titleCaseSlug t
      else joined
  | none => joined

/-- The edge label
`(child.evolution_details || []).map(formatEvolutionDetail).filter(Boolean).join(" / ") || "—"`. -/
def edgeHow (details : List EvoDetail) : String :=
  let s := String.intercalate " / "
    ((details.map formatEvolutionDetail).filter (fun x => x != ""))
  if s = "" then "—" else s

/-- Claim C7's reading of the label: the non-empty formatted conditions
joined with the bullet separator (refuted below — the source joins detail
records with a slash; the bullet joins clauses inside one record). -/
def bulletJoinedLabel (details : List EvoDetail) : String :=
  String.intercalate " • "
    ((details.map formatEvolutionDetail).filter (fun x => x != ""))

/-- A node of the evolution-chain payload: `species?.name || ""`, the
`evolution_details` carried by the edge from its parent, and
`evolves_to`. -/
inductive ChainNode where
  | mk : String → List EvoDetail → List ChainNode → ChainNode

def ChainNode.speciesName : ChainNode → String
  | .mk s _ _ => s

def ChainNode.details : ChainNode → List EvoDetail
  | .mk _ d _ => d

def ChainNode.children : ChainNode → List ChainNode
  | .mk _ _ c => c

/-- A labeled edge of the evolution graph. -/
structure EvoEdge where
  frm : String
  toName : String
  how : String
deriving DecidableEq

mutual
/-- The recursive `walk` of `collectEvolutionNodes`: push the node's
species (first visit only), then handle each child edge. -/
def walkNode : ChainNode → List String × List EvoEdge →
    List String × List EvoEdge
  | .mk sp _ children, st =>
      let nodes1 := if sp ≠ "" ∧ sp ∉ st.1 then st.1 ++ [sp] else st.1
      walkChildren sp children (nodes1, st.2)

/-- The `for (const child of node.evolves_to)` loop: push the child's
species and the labeled edge, then recurse into the child. -/
def walkChildren : String → List ChainNode → List String × List EvoEdge →
    List String × List EvoEdge
  | _, [], st => st
  | frm, c :: cs, st =>
      let toN := c.speciesName
      let how := edgeHow c.details
      let nodes1 := if toN ≠ "" ∧ toN ∉ st.1 then st.1 ++ [toN] else st.1
      let st1 := walkNode c (nodes1, st.2 ++ [⟨frm, toN, how⟩])
      walkChildren frm cs st1
end

/-- `collectEvolutionNodes` from App.jsx. -/
def collectEvolutionNodes (chainRoot : ChainNode) :
    List String × List EvoEdge :=
  walkNode chainRoot ([], [])

/-- Concrete detail: minimum level 16 and nothing else. -/
def exDetailLevel : EvoDetail := { emptyEvoDetail with min_level := some 16 }

/-- Concrete detail: trigger `trade` and nothing else. -/
def exDetailTrade : EvoDetail := { emptyEvoDetail with trigger := some "trade" }

/-- Concrete two-detail chain for the C7 counterexample. -/
def exChain : ChainNode :=
  .mk "a" [] [.mk "b" [exDetailLevel, exDetailTrade] []]

/-- The bulbasaur chain of spec §8 example 9. -/
def bulbaChain : ChainNode :=
  .mk "bulbasaur" []
    [.mk "ivysaur"
      [{ emptyEvoDetail with trigger := some "level-up", min_level := some 16 }]
      [.mk "venusaur"
        [{ emptyEvoDetail with
            trigger := some "level-up"
            min_level := some 32 }] []]]

/-! ### Type-effectiveness table (claim C8) -/

/-- The static `TYPE_CHART` from App.jsx: attacking type → defending type →
multiplier, with absent entries meaning 1. -/
def TYPE_CHART : List (String × List (String × ℚ)) :=
  [("normal", [("rock", 1/2), ("ghost", 0), ("steel", 1/2)]),
   ("fire", [("fire", 1/2), ("water", 1/2), ("grass", 2), ("ice", 2),
     ("bug", 2), ("rock", 1/2), ("dragon", 1/2), ("steel", 2)]),
   ("water", [("fire", 2), ("water", 1/2), ("grass", 1/2), ("ground", 2),
     ("rock", 2), ("dragon", 1/2)]),
   ("grass", [("fire", 1/2), ("water", 2), ("grass", 1/2), ("poison", 1/2),
     ("ground", 2), ("flying", 1/2), ("bug", 1/2), ("rock", 2),
     ("dragon", 1/2), ("steel", 1/2)]),
   ("electric", [("water", 2), ("grass", 1/2), ("electric", 1/2),
     ("ground", 0), ("flying", 2), ("dragon", 1/2)]),
   ("ice", [("fire", 1/2), ("water", 1/2), ("grass", 2), ("ground", 2),
     ("flying", 2), ("dragon", 2), ("steel", 1/2), ("ice", 1/2)]),
   ("fighting", [("normal", 2), ("ice", 2), ("rock", 2), ("dark", 2),
     ("steel", 2), ("poison", 1/2), ("flying", 1/2), ("psychic", 1/2),
     ("bug", 1/2), ("ghost", 0), ("fairy", 1/2)]),
   ("poison", [("grass", 2), ("fairy", 2), ("poison", 1/2), ("ground", 1/2),
     ("rock", 1/2), ("ghost", 1/2), ("steel", 0)]),
   ("ground", [("fire", 2), ("electric", 2), ("poison", 2), ("rock", 2),
     ("steel", 2), ("grass", 1/2), ("bug", 1/2), ("flying", 0)]),
   ("flying", [("grass", 2), ("fighting", 2), ("bug", 2), ("electric", 1/2),
     ("rock", 1/2), ("steel", 1/2)]),
   ("psychic", [("fighting", 2), ("poison", 2), ("psychic", 1/2),
     ("steel", 1/2), ("dark", 0)]),
   ("bug", [("grass", 2), ("psychic", 2), ("dark", 2), ("fire", 1/2),
     ("fighting", 1/2), ("poison", 1/2), ("flying", 1/2), ("ghost", 1/2),
     ("steel", 1/2), ("fairy", 1/2)]),
   ("rock", [("fire", 2), ("ice", 2), ("flying", 2), ("bug", 2),
     ("fighting", 1/2), ("ground", 1/2), ("steel", 1/2)]),
   ("ghost", [("psychic", 2), ("ghost", 2), ("dark", 1/2), ("normal", 0)]),
   ("dragon", [("dragon", 2), ("steel", 1/2), ("fairy", 0)]),
   ("dark", [("psychic", 2), ("ghost", 2), ("fighting", 1/2), ("dark", 1/2),
     ("fairy", 1/2)]),
   ("steel", [("ice", 2), ("rock", 2), ("fairy", 2), ("fire", 1/2),
     ("water", 1/2), ("electric", 1/2), ("steel", 1/2)]),
   ("fairy", [("fighting", 2), ("dragon", 2), ("dark", 2), ("fire", 1/2),
     ("poison", 1/2), ("steel", 1/2)])]

/-- `typeEffect(atk, def1, def2)` from App.jsx:
`const row = TYPE_CHART[atk] || {}; const m1 = row[def1] ?? 1;
const m2 = def2 ? row[def2] ?? 1 : 1; return m1 * m2;`.
The second defending type is optional, and the empty string is falsy. -/
def typeEffect (atk def1 : String) (def2 : Option String) : ℚ :=
  let row := (alookup atk TYPE_CHART).getD []
  let m1 := (alookup def1 row).getD 1
  let m2 := match def2 with
    | none => 1
    | some s => if s = "" then 1 else (alookup s row).getD 1
  m1 * m2

/-! ### Clear-cache operation (claim C9) -/

/-- `localStorage.removeItem(k)`. -/
def aremove (k : String) (m : List (String × String)) : List (String × String) :=
  m.filter (fun p => p.1 != k)

/-- The full cache state of the running application: the persistent
IndexedDB `api-cache` store and `localStorage`, plus the eleven
module-level in-memory lookup maps of App.jsx.  (The value types mirror
what each map stores; `moveMiniCache` stores `{ type, dmgClass }` pairs.) -/
structure AppCacheState where
  apiCache : List (String × Json)
  localStorageMap : List (String × String)
  pokemonCache : List (String × Json)
  pokemonExistsCache : List (String × Bool)
  speciesDefaultPokemonCache : List (String × String)
  spriteCache : List (String × String)
  moveCache : List (String × Json)
  moveMiniCache : List (String × (String × String))
  versionGenCache : List (String × VersionMeta)
  versionGroupGenCache : List (String × Nat)
  abilityCache : List (String × Json)
  itemCache : List (String × Json)
  itemCategoryCache : List (String × List String)

/-- `clearOfflineCache` from App.jsx, as a transformer of the cache state:
it removes the three `pdx-*` localStorage keys and deletes every IndexedDB
database (emptying the persistent `api-cache` store).  It never touches
the module-level in-memory maps.  (The trailing `window.location.reload()`
tears down the whole process and is outside this state model, as is the
service-worker Cache Storage.) -/
def clearOfflineCache (st : AppCacheState) : AppCacheState :=
  { st with
    localStorageMap :=
      aremove "pdx-moveColor" (aremove "pdx-zoom"
        (aremove "pdx-theme" st.localStorageMap)),
    apiCache := [] }

/-! ## Helper lemmas -/

theorem alookup_aset_self {κ α : Type} [DecidableEq κ] (k : κ) (v : α)
    (m : List (κ × α)) : alookup k (aset k v m) = some v := by
  simp [alookup, aset]

theorem alookup_aset_ne {κ α : Type} [DecidableEq κ] {k k' : κ} (v : α)
    (m : List (κ × α)) (h : k' ≠ k) :
    alookup k (aset k' v m) = alookup k m := by
  simp [alookup, aset, h]

theorem alookup_none_of_notkey {κ α : Type} [DecidableEq κ]
    (l : List (κ × α)) (k : κ) (h : ∀ p ∈ l, k ≠ p.1) : alookup k l = none := by
  induction l with
  | nil => rfl
  | cons p rest ih =>
      have h1 : p.1 ≠ k := fun he => h p (List.mem_cons_self p rest) he.symm
      obtain ⟨k', v⟩ := p
      simp only [alookup, if_neg h1]
      exact ih fun q hq => h q (List.mem_cons_of_mem _ hq)

theorem alookup_getD_empty {α : Type} (l : List (String × List (String × α)))
    (h : ∀ p ∈ l, alookup "" p.2 = none) (k : String) :
    alookup "" ((alookup k l).getD []) = none := by
  induction l with
  | nil => simp [alookup]
  | cons p rest ih =>
      obtain ⟨k', row⟩ := p
      by_cases hk : k' = k
      · simpa [alookup, hk] using h (k', row) (List.mem_cons_self _ _)
      · simp only [alookup, if_neg hk]
        exact ih fun q hq => h q (List.mem_cons_of_mem _ hq)

/-! ## Claim C1 — fetch-with-cache layer -/

/-- C1, corrected.  The cache-consultation behaviour of `fetchJsonOrNull`:
a cache hit whose stored value is truthy is returned verbatim with no
network call and no state change; otherwise (a miss, or a hit on a falsy
stored value) exactly one network GET is issued, a success returns the
decoded payload and writes it to the persistent store under the same key,
and any failure (non-success status, transport or parse error) returns
null with no persistent-cache write.  No error ever reaches the caller
(the embedding is a total function whose `failThrow` branch is the
`catch`). -/
theorem claim_C1 (world : String → NetResult) (url : String)
    (store : List (String × Json)) :
    (∀ v, alookup url store = some v → truthy v = true →
      fetchJsonOrNull world url store = (v, store, [])) ∧
    ((∀ v, alookup url store = some v → truthy v = false) →
      ((fetchJsonOrNull world url store).2.2 = [url] ∧
       (∀ d, world url = NetResult.success d →
         fetchJsonOrNull world url store = (d, aset url d store, [url])) ∧
       (world url = NetResult.failStatus ∨ world url = NetResult.failThrow →
         fetchJsonOrNull world url store = (Json.null, store, [url])))) := by
  constructor
  · intro v hv htr
    simp [fetchJsonOrNull, hv, htr]
  · intro hfal
    have hfr : fetchJsonOrNull world url store = fetchFresh world url store := by
      unfold fetchJsonOrNull
      cases h : alookup url store with
      | none => rfl
      | some v => simp [hfal v h]
    rw [hfr]
    refine ⟨?_, ?_, ?_⟩
    · unfold fetchFresh
      cases h : world url <;> simp
    · intro d hd
      unfold fetchFresh
      rw [hd]
    · rintro (h | h) <;> unfold fetchFresh <;> rw [h]

/-- C1 counterexample: the claim as stated (`C1_hit_as_stated`: any hit is
returned verbatim with no network call) is false.  With the persistent
store mapping a key to the falsy payload `false`, the key is present (a
hit), yet the value is not returned, a network GET is issued, and the
freshly fetched payload is returned instead. -/
theorem claim_C1_counterexample :
    ¬ C1_hit_as_stated ∧
    alookup "u" [("u", Json.bool false)] = some (Json.bool false) ∧
    (fetchJsonOrNull (fun _ => NetResult.success (Json.num 7)) "u"
      [("u", Json.bool false)]).2.2 = ["u"] ∧
    (fetchJsonOrNull (fun _ => NetResult.success (Json.num 7)) "u"
      [("u", Json.bool false)]).1 = Json.num 7 := by
  refine ⟨?_, rfl, rfl, rfl⟩
  intro h
  have h2 := congrArg (fun r => r.2.2)
    (h (fun _ => NetResult.success (Json.num 7)) "u" [("u", Json.bool false)]
      (Json.bool false) rfl)
  simp [fetchJsonOrNull, fetchFresh, alookup, truthy] at h2

/-- Witness for C1: the truthy-hit branch and the miss/success branch of
the corrected statement, each at a concrete input. -/
theorem claim_C1_witness :
    (alookup "u" [("u", Json.num 3)] = some (Json.num 3) ∧
     truthy (Json.num 3) = true ∧
     fetchJsonOrNull (fun _ => NetResult.failThrow) "u" [("u", Json.num 3)] =
       (Json.num 3, [("u", Json.num 3)], [])) ∧
    (fetchJsonOrNull (fun _ => NetResult.success (Json.num 5)) "w" [] =
       (Json.num 5, aset "w" (Json.num 5) [], ["w"])) :=
  ⟨⟨rfl, rfl,
    (claim_C1 (fun _ => NetResult.failThrow) "u" [("u", Json.num 3)]).1
      (Json.num 3) rfl rfl⟩,
   ((claim_C1 (fun _ => NetResult.success (Json.num 5)) "w" []).2
      (fun v hv => by simp [alookup] at hv)).2.1 (Json.num 5) rfl⟩

/-! ## Claim C9 — clear-cache frame condition -/

/-- C9, confirmed.  `clearOfflineCache` empties the persistent `api-cache`
store but leaves all eleven module-level in-memory lookup maps exactly as
they were: every entry previously present is still present unchanged. -/
theorem claim_C9 (st : AppCacheState) :
    (clearOfflineCache st).apiCache = [] ∧
    (clearOfflineCache st).pokemonCache = st.pokemonCache ∧
    (clearOfflineCache st).pokemonExistsCache = st.pokemonExistsCache ∧
    (clearOfflineCache st).speciesDefaultPokemonCache =
      st.speciesDefaultPokemonCache ∧
    (clearOfflineCache st).spriteCache = st.spriteCache ∧
    (clearOfflineCache st).moveCache = st.moveCache ∧
    (clearOfflineCache st).moveMiniCache = st.moveMiniCache ∧
    (clearOfflineCache st).versionGenCache = st.versionGenCache ∧
    (clearOfflineCache st).versionGroupGenCache = st.versionGroupGenCache ∧
    (clearOfflineCache st).abilityCache = st.abilityCache ∧
    (clearOfflineCache st).itemCache = st.itemCache ∧
    (clearOfflineCache st).itemCategoryCache = st.itemCategoryCache :=
  ⟨rfl, rfl, rfl, rfl, rfl, rfl, rfl, rfl, rfl, rfl, rfl, rfl⟩

/-! ## Claim C3 — generation resolver -/

theorem getVersionGroupGenNumber_caches (w : String → NetResult)
    (vg : String) (c : List (String × Nat)) (h : vg ≠ "") :
    alookup vg ((getVersionGroupGenNumber w vg c).2.1) =
      some (getVersionGroupGenNumber w vg c).1 := by
  unfold getVersionGroupGenNumber
  rw [if_neg h]
  cases hc : alookup vg c with
  | some g => simp [hc]
  | none =>
      simp only [hc]
      cases hw : w vg <;> simp [alookup_aset_self]

theorem getVersionGroupGenNumber_hit (w : String → NetResult) (vg : String)
    (c : List (String × Nat)) (g : Nat) (h : vg ≠ "")
    (hc : alookup vg c = some g) :
    getVersionGroupGenNumber w vg c = (g, c, []) := by
  unfold getVersionGroupGenNumber
  rw [if_neg h, hc]

theorem getVersionGenNumber_caches (wv wvg : String → JsonFetch)
    (v : String) (c : List (String × VersionMeta)) :
    alookup v ((getVersionGenNumber wv wvg v c).2.1) =
      some (getVersionGenNumber wv wvg v c).1 := by
  unfold getVersionGenNumber
  cases hc : alookup v c with
  | some m => simp [hc]
  | none =>
      simp only [hc]
      cases hv : wv v with
      | throws => simp [alookup_aset_self]
      | parsed vData =>
          cases hn : jstrOpt (jget (jget (some vData) "version_group") "name") with
          | none => simp [hn, alookup_aset_self]
          | some vgName =>
              by_cases hvg : vgName = ""
              · simp [hn, hvg, alookup_aset_self]
              · cases hw : wvg vgName <;> simp [hn, hvg, hw, alookup_aset_self]

theorem getVersionGenNumber_hit (wv wvg : String → JsonFetch) (v : String)
    (c : List (String × VersionMeta)) (m : VersionMeta)
    (hc : alookup v c = some m) :
    getVersionGenNumber wv wvg v c = (m, c, []) := by
  unfold getVersionGenNumber
  rw [hc]

/-- C3, corrected.  Roman-numeral generation slugs `i`..`ix` map to 1..9
and anything else maps to the 999 sentinel; both resolvers memoize their
result — including the 999 failure result — keyed by the input name,
except that `getVersionGroupGenNumber` answers the empty (missing)
version-group name with 999 immediately and does not cache it; in every
case a second call with the same name returns the same value, changes
nothing, and performs no network access, so a failed or missing mapping
is never retried. -/
theorem claim_C3 :
    (genSlugToNumber (some "generation-i") = 1 ∧
     genSlugToNumber (some "generation-ii") = 2 ∧
     genSlugToNumber (some "generation-iii") = 3 ∧
     genSlugToNumber (some "generation-iv") = 4 ∧
     genSlugToNumber (some "generation-v") = 5 ∧
     genSlugToNumber (some "generation-vi") = 6 ∧
     genSlugToNumber (some "generation-vii") = 7 ∧
     genSlugToNumber (some "generation-viii") = 8 ∧
     genSlugToNumber (some "generation-ix") = 9 ∧
     genSlugToNumber none = 999) ∧
    (∀ s : String,
      (∀ p ∈ romanGenMap, strReplaceFirst s "generation-" "" ≠ p.1) →
      genSlugToNumber (some s) = 999) ∧
    (∀ (w : String → NetResult) (vg : String) (c : List (String × Nat)),
      vg ≠ "" →
      alookup vg ((getVersionGroupGenNumber w vg c).2.1) =
        some (getVersionGroupGenNumber w vg c).1) ∧
    (∀ (w : String → NetResult) (vg : String) (c : List (String × Nat)),
      getVersionGroupGenNumber w vg ((getVersionGroupGenNumber w vg c).2.1) =
        ((getVersionGroupGenNumber w vg c).1,
         (getVersionGroupGenNumber w vg c).2.1, [])) ∧
    (∀ (wv wvg : String → JsonFetch) (v : String)
       (c : List (String × VersionMeta)),
      alookup v ((getVersionGenNumber wv wvg v c).2.1) =
        some (getVersionGenNumber wv wvg v c).1) ∧
    (∀ (wv wvg : String → JsonFetch) (v : String)
       (c : List (String × VersionMeta)),
      getVersionGenNumber wv wvg v ((getVersionGenNumber wv wvg v c).2.1) =
        ((getVersionGenNumber wv wvg v c).1,
         (getVersionGenNumber wv wvg v c).2.1, [])) := by
  refine ⟨⟨rfl, rfl, rfl, rfl, rfl, rfl, rfl, rfl, rfl, rfl⟩, ?_, ?_, ?_, ?_, ?_⟩
  · intro s hs
    show (alookup (strReplaceFirst s "generation-" "")
      romanGenMap).getD 999 = 999
    rw [alookup_none_of_notkey romanGenMap _ (fun p hp => hs p hp)]
    rfl
  · exact fun w vg c h => getVersionGroupGenNumber_caches w vg c h
  · intro w vg c
    by_cases h : vg = ""
    · subst h
      rfl
    · exact getVersionGroupGenNumber_hit w vg _ _ h
        (getVersionGroupGenNumber_caches w vg c h)
  · exact fun wv wvg v c => getVersionGenNumber_caches wv wvg v c
  · intro wv wvg v c
    exact getVersionGenNumber_hit wv wvg v _ _
      (getVersionGenNumber_caches wv wvg v c)

/-- C3 counterexample: the claim as stated says the result is always
cached keyed by the input name, but `getVersionGroupGenNumber("")`
(a missing version-group name) answers 999 while leaving the cache
untouched: its own result is not cached. -/
theorem claim_C3_counterexample :
    (getVersionGroupGenNumber (fun _ => NetResult.failThrow) "" []).1 = 999 ∧
    (getVersionGroupGenNumber (fun _ => NetResult.failThrow) "" []).2.1 = [] ∧
    (getVersionGroupGenNumber (fun _ => NetResult.failThrow) "" []).2.2 = [] ∧
    alookup ""
      ((getVersionGroupGenNumber (fun _ => NetResult.failThrow) "" []).2.1) =
      none :=
  ⟨rfl, rfl, rfl, rfl⟩

/-- Witness for C3: the 999 sentinel for a non-roman slug, and the
caching property at a concrete failed lookup. -/
theorem claim_C3_witness :
    ((∀ p ∈ romanGenMap, strReplaceFirst "generation-x" "generation-" "" ≠ p.1) ∧
     genSlugToNumber (some "generation-x") = 999) ∧
    (("swsh" : String) ≠ "" ∧
     alookup "swsh"
       ((getVersionGroupGenNumber (fun _ => NetResult.failStatus) "swsh" []).2.1) =
       some (getVersionGroupGenNumber (fun _ => NetResult.failStatus) "swsh" []).1) :=
  ⟨⟨by decide, claim_C3.2.1 "generation-x" (by decide)⟩,
   ⟨by decide, claim_C3.2.2.1 (fun _ => NetResult.failStatus) "swsh" [] (by decide)⟩⟩

/-! ## Claim C8 — type-effectiveness query -/

/-- No chart row has an entry for the empty defending-type name, so the
falsy branch (`def2 ? … : 1`) and the falsy lookup agree. -/
theorem rowLookup_empty_none (atk : String) :
    alookup "" ((alookup atk TYPE_CHART).getD []) = none :=
  alookup_getD_empty TYPE_CHART (by decide) atk

/-- C8, confirmed.  `typeEffect` satisfies the dual-type product law
`typeEffect(a, d1, d2) = typeEffect(a, d1, null) * typeEffect(a, d2, null)`
for every attacking type and every pair of (non-null) defending type
names; an omitted second defending type contributes a neutral factor 1,
and a defending type absent from the attacking type's chart row
contributes factor 1. -/
theorem claim_C8 :
    (∀ atk d1 d2 : String,
      typeEffect atk d1 (some d2) =
        typeEffect atk d1 none * typeEffect atk d2 none) ∧
    (∀ atk d1 : String,
      typeEffect atk d1 none =
        (alookup d1 ((alookup atk TYPE_CHART).getD [])).getD 1 * 1) ∧
    (∀ atk d1 : String, ∀ row : List (String × ℚ),
      alookup atk TYPE_CHART = some row → alookup d1 row = none →
      typeEffect atk d1 none = 1) := by
  refine ⟨?_, ?_, ?_⟩
  · intro atk d1 d2
    by_cases h2 : d2 = ""
    · subst h2
      simp [typeEffect, rowLookup_empty_none]
    · simp [typeEffect, h2]
  · intro atk d1
    simp [typeEffect]
  · intro atk d1 row hrow hnone
    simp [typeEffect, hrow, hnone]

/-- Witness for C8: the absent-entry clause at a concrete input
(`fire` is not in the `normal` row, so `typeEffect("normal","fire",null)`
is neutral). -/
theorem claim_C8_witness :
    alookup "fire" [("rock", (1 : ℚ)/2), ("ghost", 0), ("steel", 1/2)] =
      none ∧
    typeEffect "normal" "fire" none = 1 :=
  ⟨by decide,
   claim_C8.2.2 "normal" "fire" [("rock", 1/2), ("ghost", 0), ("steel", 1/2)]
     rfl (by decide)⟩

/-! ## Claim C4 — representative version-group detail -/

theorem betterDetail_self (a : VGDetail) : betterDetail a a = a := by
  unfold betterDetail
  split_ifs <;> rfl

theorem betterDetail_eq_or (a d : VGDetail) :
    betterDetail a d = a ∨ betterDetail a d = d := by
  unfold betterDetail
  split_ifs <;> simp

theorem betterDetail_skip (a d : VGDetail)
    (h : ¬ d.move_learn_method = some "level-up") : betterDetail a d = a := by
  unfold betterDetail
  rw [if_neg h]

theorem betterDetail_take (a d : VGDetail)
    (h : d.move_learn_method = some "level-up")
    (h2 : ¬ a.move_learn_method = some "level-up") : betterDetail a d = d := by
  unfold betterDetail
  rw [if_pos h, if_pos h2]

theorem betterDetail_lt (a d : VGDetail)
    (h : d.move_learn_method = some "level-up")
    (h2 : a.move_learn_method = some "level-up")
    (h3 : effLevel d < effLevel a) : betterDetail a d = d := by
  unfold betterDetail
  unfold effLevel at h3
  rw [if_pos h, if_neg (by simp [h2]), if_pos h3]

theorem betterDetail_keep (a d : VGDetail)
    (h2 : a.move_learn_method = some "level-up")
    (h3 : ¬ effLevel d < effLevel a) : betterDetail a d = a := by
  unfold betterDetail
  unfold effLevel at h3
  by_cases hd : d.move_learn_method = some "level-up"
  · rw [if_pos hd, if_neg (by simp [h2]), if_neg h3]
  · rw [if_neg hd]

theorem foldl_betterDetail_mem :
    ∀ (l : List VGDetail) (acc : VGDetail),
      l.foldl betterDetail acc ∈ acc :: l := by
  intro l
  induction l with
  | nil => intro acc; simp
  | cons d t ih =>
      intro acc
      have h := ih (betterDetail acc d)
      simp only [List.foldl_cons]
      rcases betterDetail_eq_or acc d with h1 | h1 <;> rw [h1] at h ⊢ <;>
        rcases List.mem_cons.mp h with h2 | h2 <;>
          simp [List.mem_cons, h2]

theorem foldl_betterDetail_lu :
    ∀ (l : List VGDetail) (acc : VGDetail),
      acc.move_learn_method = some "level-up" →
      (l.foldl betterDetail acc).move_learn_method = some "level-up" ∧
      effLevel (l.foldl betterDetail acc) ≤ effLevel acc := by
  intro l
  induction l with
  | nil => intro acc h; exact ⟨h, le_refl _⟩
  | cons d t ih =>
      intro acc h
      simp only [List.foldl_cons]
      by_cases hd : d.move_learn_method = some "level-up"
      · by_cases hlt : effLevel d < effLevel acc
        · rw [betterDetail_lt acc d hd h hlt]
          obtain ⟨h1, h2⟩ := ih d hd
          exact ⟨h1, le_trans h2 (le_of_lt hlt)⟩
        · rw [betterDetail_keep acc d h hlt]
          exact ih acc h
      · rw [betterDetail_skip acc d hd]
        exact ih acc h

theorem foldl_betterDetail_min :
    ∀ (l : List VGDetail) (acc d : VGDetail),
      d ∈ l → d.move_learn_method = some "level-up" →
      (l.foldl betterDetail acc).move_learn_method = some "level-up" ∧
      effLevel (l.foldl betterDetail acc) ≤ effLevel d := by
  intro l
  induction l with
  | nil => intro acc d h; simp at h
  | cons e t ih =>
      intro acc d hmem hd
      simp only [List.foldl_cons]
      rcases List.mem_cons.mp hmem with rfl | hmem'
      · by_cases hacc : acc.move_learn_method = some "level-up"
        · by_cases hlt : effLevel d < effLevel acc
          · rw [betterDetail_lt acc d hd hacc hlt]
            exact foldl_betterDetail_lu t d hd
          · rw [betterDetail_keep acc d hacc hlt]
            obtain ⟨h1, h2⟩ := foldl_betterDetail_lu t acc hacc
            exact ⟨h1, le_trans h2 (le_of_not_lt hlt)⟩
        · rw [betterDetail_take acc d hd hacc]
          exact foldl_betterDetail_lu t d hd
      · exact ih (betterDetail acc e) d hmem' hd

theorem foldl_betterDetail_noLU :
    ∀ (l : List VGDetail) (acc : VGDetail),
      (∀ d ∈ l, ¬ d.move_learn_method = some "level-up") →
      l.foldl betterDetail acc = acc := by
  intro l
  induction l with
  | nil => intro acc _; rfl
  | cons e t ih =>
      intro acc h
      simp only [List.foldl_cons]
      rw [betterDetail_skip acc e (h e (List.mem_cons_self e t))]
      exact ih acc fun d hd => h d (List.mem_cons_of_mem _ hd)

/-- C4, confirmed.  The representative detail selected by `buildMoves`
from a non-empty filtered detail list is always one of the filtered
details; if any level-up detail is present, the representative is a
level-up detail with the minimal effective level (`level_learned_at ??
999`) among all level-up details; if none is present, the representative
is the first detail in encounter order.  In particular two level-up
details at levels 12 and 7 select the level-7 one. -/
theorem claim_C4 :
    (∀ (h : VGDetail) (t : List VGDetail) (b : VGDetail),
      pickBestDetail (h :: t) = some b →
      (b ∈ h :: t) ∧
      ((∃ d ∈ h :: t, d.move_learn_method = some "level-up") →
        b.move_learn_method = some "level-up" ∧
        ∀ d ∈ h :: t, d.move_learn_method = some "level-up" →
          effLevel b ≤ effLevel d) ∧
      ((∀ d ∈ h :: t, ¬ d.move_learn_method = some "level-up") → b = h)) ∧
    pickBestDetail
      [⟨some "level-up", some 12, none⟩, ⟨some "level-up", some 7, none⟩] =
      some ⟨some "level-up", some 7, none⟩ := by
  constructor
  · intro h t b hb
    have hfold : (h :: t).foldl betterDetail h = b := by
      simpa [pickBestDetail] using hb
    have hstep : (h :: t).foldl betterDetail h = t.foldl betterDetail h := by
      simp [List.foldl_cons, betterDetail_self]
    rw [hstep] at hfold
    subst hfold
    refine ⟨?_, ?_, ?_⟩
    · exact foldl_betterDetail_mem t h
    · rintro ⟨d, hd, hdlu⟩
      have hmain : (t.foldl betterDetail h).move_learn_method =
          some "level-up" := by
        rcases List.mem_cons.mp hd with rfl | hd'
        · exact (foldl_betterDetail_lu t d hdlu).1
        · exact (foldl_betterDetail_min t h d hd' hdlu).1
      refine ⟨hmain, ?_⟩
      intro e he helu
      rcases List.mem_cons.mp he with rfl | he'
      · exact (foldl_betterDetail_lu t e helu).2
      · exact (foldl_betterDetail_min t h e he' helu).2
    · intro hnone
      exact foldl_betterDetail_noLU t h
        fun d hd => hnone d (List.mem_cons_of_mem _ hd)
  · decide

/-- Witness for C4: the general selection theorem applied to the concrete
12-vs-7 pair discharges its hypotheses and yields membership, the
level-up preference, and the minimal level. -/
theorem claim_C4_witness :
    (⟨some "level-up", some 7, none⟩ : VGDetail) ∈
      [(⟨some "level-up", some 12, none⟩ : VGDetail),
       ⟨some "level-up", some 7, none⟩] :=
  (claim_C4.1 ⟨some "level-up", some 12, none⟩
    [⟨some "level-up", some 7, none⟩] ⟨some "level-up", some 7, none⟩
    (by decide)).1

/-! ## Claim C5 — bucket exclusivity -/

theorem countRec_append (l : List MoveRec) (r : MoveRec) (nm : String) :
    countRec (l ++ [r]) nm =
      countRec l nm + (if r.name = nm then 1 else 0) := by
  unfold countRec
  rw [List.filter_append]
  by_cases h : r.name = nm <;> simp [h]

theorem countBuckets_push (out : MoveBuckets) (method : String) (r : MoveRec)
    (nm : String) :
    countBuckets (pushBucket out method r) nm =
      countBuckets out nm + (if r.name = nm then 1 else 0) := by
  unfold pushBucket
  by_cases hr : r.name = nm <;>
    split_ifs <;> simp [countBuckets, countRec_append, hr] <;> omega

theorem countBuckets_moveStep (genOf : Option String → Nat)
    (genWanted : Option Nat) (q : String) (out : MoveBuckets) (m : MoveEntry)
    (nm : String) :
    countBuckets (moveStep genOf genWanted q out m) nm =
      countBuckets out nm +
        (if m.moveName = some nm ∧ nm ≠ "" ∧ passesNameFilter q nm = true ∧
            matchingDetails genOf genWanted m ≠ [] then 1 else 0) := by
  unfold moveStep
  cases hn : m.moveName with
  | none => simp [hn]
  | some x =>
      by_cases hx : x = nm
      · subst hx
        by_cases hx0 : x = ""
        · simp [hn, hx0]
        · cases hp : passesNameFilter q x with
          | false => simp [hn, hx0, hp]
          | true =>
              cases hm : matchingDetails genOf genWanted m with
              | nil => simp [hn, hx0, hp, hm]
              | cons h t => simp [hn, hx0, hp, hm, countBuckets_push]
      · by_cases hx0 : x = ""
        · subst hx0
          simp [hn, hx]
        · cases hp : passesNameFilter q x with
          | false => simp [hn, hx0, hp, hx]
          | true =>
              cases hm : matchingDetails genOf genWanted m with
              | nil => simp [hn, hx0, hp, hm, hx]
              | cons h t => simp [hn, hx0, hp, hm, hx, countBuckets_push]

/-- The predicate controlling whether a move entry contributes a record
named `nm` to the buckets. -/
def contributes (genOf : Option String → Nat) (genWanted : Option Nat)
    (q : String) (nm : String) (m : MoveEntry) : Bool :=
  decide (m.moveName = some nm ∧ nm ≠ "" ∧ passesNameFilter q nm = true ∧
    matchingDetails genOf genWanted m ≠ [])

theorem countBuckets_foldl (genOf : Option String → Nat)
    (genWanted : Option Nat) (q : String) (moves : List MoveEntry)
    (init : MoveBuckets) (nm : String) :
    countBuckets (moves.foldl (moveStep genOf genWanted q) init) nm =
      countBuckets init nm + moves.countP (contributes genOf genWanted q nm) := by
  induction moves generalizing init with
  | nil => simp
  | cons m t ih =>
      simp only [List.foldl_cons, List.countP_cons]
      rw [ih, countBuckets_moveStep]
      unfold contributes
      by_cases h : m.moveName = some nm ∧ nm ≠ "" ∧
          passesNameFilter q nm = true ∧
          matchingDetails genOf genWanted m ≠ []
      · simp [h]
        omega
      · simp [h]

theorem countRec_insertionSort (r : MoveRec → MoveRec → Prop)
    [DecidableRel r] (l : List MoveRec) (nm : String) :
    countRec (List.insertionSort r l) nm = countRec l nm := by
  unfold countRec
  exact ((List.perm_insertionSort r l).filter _).length_eq

theorem countBuckets_buildMoves (genOf : Option String → Nat)
    (genWanted : Option Nat) (q : String) (moves : List MoveEntry)
    (nm : String) :
    countBuckets (buildMoves genOf genWanted q moves) nm =
      moves.countP (contributes genOf genWanted q nm) := by
  unfold buildMoves
  simp only [countBuckets, countRec_insertionSort]
  have h := countBuckets_foldl genOf genWanted q moves emptyBuckets nm
  simpa [countBuckets, emptyBuckets, countRec] using h

theorem countP_unique_entry {nm : String} (p : MoveEntry → Bool)
    (hp : ∀ x, p x = true → x.moveName = some nm) :
    ∀ (moves : List MoveEntry) (m : MoveEntry),
      (moves.filterMap MoveEntry.moveName).Nodup → m ∈ moves →
      m.moveName = some nm →
      moves.countP p = if p m then 1 else 0 := by
  intro moves
  induction moves with
  | nil => intro m _ hm; simp at hm
  | cons e t ih =>
      intro m hnd hm hname
      have hft : (t.filterMap MoveEntry.moveName).Nodup := by
        cases he : e.moveName with
        | none => simpa [List.filterMap_cons, he] using hnd
        | some a =>
            rw [List.filterMap_cons, he] at hnd
            exact hnd.of_cons
      rcases List.mem_cons.mp hm with rfl | hm'
      · -- the head is the named entry: no tail entry shares the name
        have hnotin : ∀ x ∈ t, x.moveName ≠ some nm := by
          intro x hx hxe
          rw [List.filterMap_cons, hname] at hnd
          exact (List.nodup_cons.mp hnd).1
            (List.mem_filterMap.mpr ⟨x, hx, hxe⟩)
        have ht0 : t.countP p = 0 := by
          rw [List.countP_eq_zero]
          intro x hx hpx
          exact hnotin x hx (hp x hpx)
        rw [List.countP_cons, ht0]
        by_cases hpm : p m = true <;> simp [hpm]
      · -- the named entry is in the tail: the head cannot share the name
        have hene : e.moveName ≠ some nm := by
          intro he
          rw [List.filterMap_cons, he] at hnd
          exact (List.nodup_cons.mp hnd).1
            (List.mem_filterMap.mpr ⟨m, hm', hname⟩)
        have hpe : p e = false := by
          cases hpe : p e with
          | false => rfl
          | true => exact absurd (hp e hpe) hene
        rw [List.countP_cons, hpe]
        simpa using ih m hft hm' hname

/-- C5, confirmed.  For a fixed generation filter and name filter, a move
(with a truthy, i.e. non-empty, name passing the name filter, occurring
once in the move list) with at least one version-group detail matching
the generation filter appears in exactly one of the five buckets of the
movepool output, and a move with zero matching details appears in none of
them. -/
theorem claim_C5 (genOf : Option String → Nat) (genWanted : Option Nat)
    (q : String) (moves : List MoveEntry) (nm : String) (m : MoveEntry)
    (hnd : (moves.filterMap MoveEntry.moveName).Nodup) (hm : m ∈ moves)
    (hname : m.moveName = some nm) :
    (nm ≠ "" → passesNameFilter q nm = true →
      matchingDetails genOf genWanted m ≠ [] →
      countBuckets (buildMoves genOf genWanted q moves) nm = 1) ∧
    (matchingDetails genOf genWanted m = [] →
      countBuckets (buildMoves genOf genWanted q moves) nm = 0) := by
  have hcnt := countBuckets_buildMoves genOf genWanted q moves nm
  have huni := countP_unique_entry (contributes genOf genWanted q nm)
    (fun x hx => by
      have := of_decide_eq_true hx
      exact this.1) moves m hnd hm hname
  constructor
  · intro hnm hpass hmatch
    rw [hcnt, huni]
    have : contributes genOf genWanted q nm m = true := by
      unfold contributes
      exact decide_eq_true ⟨hname, hnm, hpass, hmatch⟩
    simp [this]
  · intro hmatch
    rw [hcnt, huni]
    have : contributes genOf genWanted q nm m = false := by
      unfold contributes
      simp [hmatch]
    simp [this]

/-- Witness for C5: a one-move list with one matching level-up detail
lands in exactly one bucket; the same machinery at a move with zero
matching details (generation filter 2, detail in generation 1) yields
zero. -/
theorem claim_C5_witness :
    countBuckets
      (buildMoves (fun _ => 1) none ""
        [⟨some "tackle", [⟨some "level-up", some 1, some "red-blue"⟩]⟩])
      "tackle" = 1 ∧
    countBuckets
      (buildMoves (fun _ => 1) (some 2) ""
        [⟨some "tackle", [⟨some "level-up", some 1, some "red-blue"⟩]⟩])
      "tackle" = 0 :=
  ⟨(claim_C5 (fun _ => 1) none ""
      [⟨some "tackle", [⟨some "level-up", some 1, some "red-blue"⟩]⟩]
      "tackle" ⟨some "tackle", [⟨some "level-up", some 1, some "red-blue"⟩]⟩
      (by decide) (by decide) rfl).1 (by decide) (by decide) (by decide),
   (claim_C5 (fun _ => 1) (some 2) ""
      [⟨some "tackle", [⟨some "level-up", some 1, some "red-blue"⟩]⟩]
      "tackle" ⟨some "tackle", [⟨some "level-up", some 1, some "red-blue"⟩]⟩
      (by decide) (by decide) rfl).2 (by decide)⟩

/-! ## Claim C6 — variant catalog invariants -/

theorem localeCmp_le_iff (x y : String) : localeCmp x y ≤ 0 ↔ x ≤ y := by
  unfold localeCmp
  rcases lt_trichotomy x y with h | h | h
  · simp [h, le_of_lt h]
  · subst h
    simp [lt_irrefl]
  · have h1 : ¬ x < y := not_lt_of_gt h
    have h2 : x ≠ y := ne_of_gt h
    simp [h1, h2, not_le.mpr h]

theorem variantLE_iff (baseName : String) (a b : VFEntry) :
    variantLE baseName a b ↔
      (vrank baseName a < vrank baseName b ∨
        (vrank baseName a = vrank baseName b ∧ a.label ≤ b.label)) := by
  unfold variantLE variantCmp vrank
  by_cases ha : a.pokemonName = baseName <;>
    by_cases hb : b.pokemonName = baseName
  · have hr : isRegionalVariant a.pokemonName =
        isRegionalVariant b.pokemonName := by rw [ha, hb]
    simp [ha, hb, hr, localeCmp_le_iff]
  · by_cases hrb : isRegionalVariant b.pokemonName <;> simp [ha, hb, hrb]
  · by_cases hra : isRegionalVariant a.pokemonName <;> simp [ha, hb, hra]
  · by_cases hra : isRegionalVariant a.pokemonName <;>
      by_cases hrb : isRegionalVariant b.pokemonName <;>
        simp [ha, hb, hra, hrb, localeCmp_le_iff]

theorem variantLE_total (baseName : String) (a b : VFEntry) :
    variantLE baseName a b ∨ variantLE baseName b a := by
  rw [variantLE_iff, variantLE_iff]
  rcases Nat.lt_trichotomy (vrank baseName a) (vrank baseName b) with h | h | h
  · exact Or.inl (Or.inl h)
  · rcases le_total a.label b.label with hl | hl
    · exact Or.inl (Or.inr ⟨h, hl⟩)
    · exact Or.inr (Or.inr ⟨h.symm, hl⟩)
  · exact Or.inr (Or.inl h)

theorem variantLE_trans (baseName : String) (a b c : VFEntry)
    (h1 : variantLE baseName a b) (h2 : variantLE baseName b c) :
    variantLE baseName a c := by
  rw [variantLE_iff] at h1 h2 ⊢
  rcases h1 with h1 | ⟨h1, h1'⟩ <;> rcases h2 with h2 | ⟨h2, h2'⟩
  · exact Or.inl (h1.trans h2)
  · exact Or.inl (h2 ▸ h1)
  · exact Or.inl (h1 ▸ h2)
  · exact Or.inr ⟨h1.trans h2, h1'.trans h2'⟩

theorem variantLE_reg_mono (baseName : String) (a b : VFEntry)
    (hbase : isRegionalVariant baseName = false)
    (h : variantLE baseName a b)
    (hra : isRegionalVariant a.pokemonName = true) :
    isRegionalVariant b.pokemonName = true := by
  rw [variantLE_iff] at h
  have hane : a.pokemonName ≠ baseName := by
    intro he
    rw [he, hbase] at hra
    cases hra
  have hrka : vrank baseName a = 2 := by
    unfold vrank
    simp [hane, hra]
  have hrkb : 2 ≤ vrank baseName b := by
    rcases h with h | ⟨h, _⟩ <;> omega
  unfold vrank at hrkb
  split_ifs at hrkb with h1 h2
  · omega
  · exact h2
  · omega

theorem classifyStep_variants_countP (existsP : String → Bool)
    (baseName : String) (cat : VFCatalog) (p : String) :
    ((classifyStep existsP baseName cat p).variants.countP
        (fun e => decide (e.pokemonName = baseName))) =
      cat.variants.countP (fun e => decide (e.pokemonName = baseName)) +
        (if existsP p && decide (p = baseName) then 1 else 0) := by
  unfold classifyStep
  by_cases hex : existsP p = false
  · simp [hex]
  · rw [if_neg hex]
    have hex' : existsP p = true := by
      cases h : existsP p
      · exact absurd h hex
      · rfl
    by_cases hb : p = baseName
    · subst hb
      simp [hex', List.countP_append, List.countP_cons]
    · have hfb : (existsP p && decide (p = baseName)) = false := by simp [hb]
      simp only [hfb, Bool.false_eq_true, if_false]
      split_ifs <;> simp [hb, List.countP_append, List.countP_cons]

theorem classify_countP (existsP : String → Bool) (baseName : String) :
    ∀ (cands : List String) (cat : VFCatalog),
      ((cands.foldl (classifyStep existsP baseName) cat).variants.countP
          (fun e => decide (e.pokemonName = baseName))) =
        cat.variants.countP (fun e => decide (e.pokemonName = baseName)) +
          cands.countP (fun p => existsP p && decide (p = baseName)) := by
  intro cands
  induction cands with
  | nil => intro cat; simp
  | cons p t ih =>
      intro cat
      simp only [List.foldl_cons, List.countP_cons]
      rw [ih, classifyStep_variants_countP]
      by_cases h : existsP p && decide (p = baseName) <;> simp [h] <;> omega

theorem dedupFirst_nodup :
    ∀ (l seen : List String),
      (dedupFirst seen l).Nodup ∧ ∀ x ∈ dedupFirst seen l, x ∉ seen := by
  intro l
  induction l with
  | nil => intro seen; simp [dedupFirst]
  | cons x t ih =>
      intro seen
      unfold dedupFirst
      by_cases hx : x ∈ seen
      · simp only [if_pos hx]
        exact ih seen
      · simp only [if_neg hx]
        obtain ⟨h1, h2⟩ := ih (x :: seen)
        refine ⟨List.nodup_cons.mpr
          ⟨fun hmem => (h2 x hmem) (List.mem_cons_self x seen), h1⟩, ?_⟩
        intro y hy
        rcases List.mem_cons.mp hy with rfl | hy'
        · exact hx
        · exact fun hys => (h2 y hy') (List.mem_cons_of_mem _ hys)

theorem countP_eq_le_one_of_nodup :
    ∀ (l : List String), l.Nodup → ∀ b : String,
      l.countP (fun p => decide (p = b)) ≤ 1 := by
  intro l
  induction l with
  | nil => intro _ b; simp
  | cons x t ih =>
      intro hnd b
      obtain ⟨hx, ht⟩ := List.nodup_cons.mp hnd
      rw [List.countP_cons]
      by_cases hb : x = b
      · subst hb
        have : t.countP (fun p => decide (p = x)) = 0 := by
          rw [List.countP_eq_zero]
          intro a ha hpa
          exact hx (of_decide_eq_true hpa ▸ ha)
        simp [this]
      · simpa [hb] using ih ht b

/-- C6, confirmed.  In every catalog built by the variant/form list
builder (with a non-regional base name, as produced by the species
endpoint), the base entry is present exactly once in the variant bucket,
it is the first element of that bucket, and within the bucket no regional
entry precedes a non-regional entry. -/
theorem claim_C6 (existsP : String → Bool) (baseName : String)
    (varietiesRaw formNamesRaw : List String)
    (hbase : isRegionalVariant baseName = false) :
    ((buildVariantCatalog existsP baseName varietiesRaw
        formNamesRaw).variants.countP
      (fun e => decide (e.pokemonName = baseName)) = 1) ∧
    (∃ e t, (buildVariantCatalog existsP baseName varietiesRaw
        formNamesRaw).variants = e :: t ∧ e.pokemonName = baseName) ∧
    ((buildVariantCatalog existsP baseName varietiesRaw
        formNamesRaw).variants.Pairwise
      (fun a b => isRegionalVariant a.pokemonName = true →
        isRegionalVariant b.pokemonName = true)) := by
  haveI : IsTotal VFEntry (variantLE baseName) := ⟨variantLE_total baseName⟩
  haveI : IsTrans VFEntry (variantLE baseName) :=
    ⟨fun a b c => variantLE_trans baseName a b c⟩
  have hnd : (dedupFirst [] (varietiesRaw ++ formNamesRaw)).Nodup :=
    (dedupFirst_nodup (varietiesRaw ++ formNamesRaw) []).1
  -- count of base-named entries in the classified variants bucket
  have hck : (classifyCandidates existsP baseName
      (dedupFirst [] (varietiesRaw ++ formNamesRaw))).variants.countP
        (fun e => decide (e.pokemonName = baseName)) ≤ 1 := by
    unfold classifyCandidates
    rw [classify_countP]
    simp only [List.countP_nil, Nat.zero_add]
    calc (dedupFirst [] (varietiesRaw ++ formNamesRaw)).countP
          (fun p => existsP p && decide (p = baseName)) ≤
        (dedupFirst [] (varietiesRaw ++ formNamesRaw)).countP
          (fun p => decide (p = baseName)) := by
          exact List.countP_mono_left
            (fun x _ hx => by
              simp only [Bool.and_eq_true] at hx
              exact hx.2)
      _ ≤ 1 := countP_eq_le_one_of_nodup _ hnd baseName
  -- count of base-named entries in the pre-sort variant list is exactly 1
  have hcount0 :
      (if (classifyCandidates existsP baseName
            (dedupFirst [] (varietiesRaw ++ formNamesRaw))).variants.any
              (fun o => o.pokemonName = baseName) then
          (classifyCandidates existsP baseName
            (dedupFirst [] (varietiesRaw ++ formNamesRaw))).variants
        else
          ⟨"Base", baseName⟩ :: (classifyCandidates existsP baseName
            (dedupFirst [] (varietiesRaw ++ formNamesRaw))).variants).countP
        (fun e => decide (e.pokemonName = baseName)) = 1 := by
    by_cases hany : (classifyCandidates existsP baseName
        (dedupFirst [] (varietiesRaw ++ formNamesRaw))).variants.any
          (fun o => o.pokemonName = baseName) = true
    · rw [if_pos hany]
      have hpos : 0 < (classifyCandidates existsP baseName
          (dedupFirst [] (varietiesRaw ++ formNamesRaw))).variants.countP
            (fun e => decide (e.pokemonName = baseName)) := by
        rw [List.countP_pos]
        obtain ⟨e, he, hpe⟩ := List.any_eq_true.mp hany
        exact ⟨e, he, hpe⟩
      omega
    · rw [if_neg hany]
      have hz : (classifyCandidates existsP baseName
          (dedupFirst [] (varietiesRaw ++ formNamesRaw))).variants.countP
            (fun e => decide (e.pokemonName = baseName)) = 0 := by
        rw [List.countP_eq_zero]
        intro e he hpe
        exact hany (List.any_eq_true.mpr ⟨e, he, hpe⟩)
      simp [List.countP_cons, hz]
  have hperm := List.perm_insertionSort (variantLE baseName)
    (if (classifyCandidates existsP baseName
          (dedupFirst [] (varietiesRaw ++ formNamesRaw))).variants.any
            (fun o => o.pokemonName = baseName) then
        (classifyCandidates existsP baseName
          (dedupFirst [] (varietiesRaw ++ formNamesRaw))).variants
      else
        ⟨"Base", baseName⟩ :: (classifyCandidates existsP baseName
          (dedupFirst [] (varietiesRaw ++ formNamesRaw))).variants)
  have hsorted := List.sorted_insertionSort (variantLE baseName)
    (if (classifyCandidates existsP baseName
          (dedupFirst [] (varietiesRaw ++ formNamesRaw))).variants.any
            (fun o => o.pokemonName = baseName) then
        (classifyCandidates existsP baseName
          (dedupFirst [] (varietiesRaw ++ formNamesRaw))).variants
      else
        ⟨"Base", baseName⟩ :: (classifyCandidates existsP baseName
          (dedupFirst [] (varietiesRaw ++ formNamesRaw))).variants)
  have hV : (buildVariantCatalog existsP baseName varietiesRaw
      formNamesRaw).variants =
      List.insertionSort (variantLE baseName)
        (if (classifyCandidates existsP baseName
              (dedupFirst [] (varietiesRaw ++ formNamesRaw))).variants.any
                (fun o => o.pokemonName = baseName) then
            (classifyCandidates existsP baseName
              (dedupFirst [] (varietiesRaw ++ formNamesRaw))).variants
          else
            ⟨"Base", baseName⟩ :: (classifyCandidates existsP baseName
              (dedupFirst [] (varietiesRaw ++ formNamesRaw))).variants) := rfl
  have hcount : (buildVariantCatalog existsP baseName varietiesRaw
      formNamesRaw).variants.countP
        (fun e => decide (e.pokemonName = baseName)) = 1 := by
    rw [hV, hperm.countP_eq]
    exact hcount0
  refine ⟨hcount, ?_, ?_⟩
  · -- the unique base entry is the head
    have hpos : 0 < (buildVariantCatalog existsP baseName varietiesRaw
        formNamesRaw).variants.countP
          (fun e => decide (e.pokemonName = baseName)) := by omega
    obtain ⟨e0, he0, hpe0⟩ := List.countP_pos.mp hpos
    have hsorted' : ((buildVariantCatalog existsP baseName varietiesRaw
        formNamesRaw).variants).Sorted (variantLE baseName) := by
      rw [hV]
      exact hsorted
    cases hVv : (buildVariantCatalog existsP baseName varietiesRaw
        formNamesRaw).variants with
    | nil => rw [hVv] at he0; cases he0
    | cons h t =>
        refine ⟨h, t, rfl, ?_⟩
        by_contra hh
        rw [hVv] at he0 hsorted'
        have he0' : e0 ∈ t := by
          rcases List.mem_cons.mp he0 with rfl | he0'
          · exact absurd (of_decide_eq_true hpe0) hh
          · exact he0'
        have hle := (List.sorted_cons.mp hsorted').1 e0 he0'
        rw [variantLE_iff] at hle
        have he0b : e0.pokemonName = baseName := of_decide_eq_true hpe0
        have hrk0 : vrank baseName e0 = 0 := by unfold vrank; simp [he0b]
        have hrkh : 1 ≤ vrank baseName h := by
          unfold vrank
          rw [if_neg hh]
          split_ifs <;> omega
        rcases hle with hle | ⟨hle, _⟩ <;> omega
  · -- regional entries never precede non-regional entries
    have hsorted' : ((buildVariantCatalog existsP baseName varietiesRaw
        formNamesRaw).variants).Sorted (variantLE baseName) := by
      rw [hV]
      exact hsorted
    exact List.Pairwise.imp
      (fun hab hra => variantLE_reg_mono baseName _ _ hbase hab hra) hsorted'

/-- Witness for C6: a concrete catalog (base `pika`, a regional and a mega
candidate, everything existing) has the base entry exactly once, first,
and the regional entry after the non-regional ones. -/
theorem claim_C6_witness :
    isRegionalVariant "pika" = false ∧
    ((buildVariantCatalog (fun _ => true) "pika"
        ["pika", "pika-alola"] ["pika-mega"]).variants.countP
      (fun e => decide (e.pokemonName = "pika")) = 1) :=
  ⟨by decide,
   (claim_C6 (fun _ => true) "pika" ["pika", "pika-alola"] ["pika-mega"]
     (by decide)).1⟩

/-! ## Claim C7 — evolution edge labels -/

theorem intercalate_single (s a : String) : String.intercalate s [a] = a := rfl

theorem intercalate_pair (s a b : String) :
    String.intercalate s [a, b] = a ++ s ++ b := rfl

theorem str_append_ne_empty (a b : String) (h : a ≠ "") : a ++ b ≠ "" := by
  obtain ⟨da⟩ := a
  obtain ⟨db⟩ := b
  intro he
  apply h
  have he' : String.mk (da ++ db) = String.mk [] := he
  injection he' with hd
  rcases List.append_eq_nil.mp hd with ⟨rfl, rfl⟩
  rfl

/-- C7, corrected.  Label algebra of the evolution graph builder: an edge
with no detail records — or only records that format to the empty
condition, such as a record with neither structured fields nor a trigger —
gets the em-dash placeholder; a record with no structured condition fields
but a trigger name formats to the canonical phrase (`trade` ⇒ "Trade",
`use-item` ⇒ "Use Item", `level-up` ⇒ "Level Up", anything else
title-cased); and the non-empty formatted conditions of the edge's detail
records are joined with the slash separator `" / "` (the bullet separator
`" • "` joins the clauses inside one record, not the records); the
bulbasaur chain of the spec yields exactly its stated nodes and labeled
edges. -/
theorem claim_C7 :
    (edgeHow [] = "—" ∧
     formatEvolutionDetail emptyEvoDetail = "" ∧
     edgeHow [emptyEvoDetail] = "—") ∧
    (formatEvolutionDetail { emptyEvoDetail with trigger := some "trade" } =
        "Trade" ∧
     formatEvolutionDetail { emptyEvoDetail with trigger := some "use-item" } =
        "Use Item" ∧
     formatEvolutionDetail { emptyEvoDetail with trigger := some "level-up" } =
        "Level Up" ∧
     ∀ t : String, t ≠ "" → t ≠ "trade" → t ≠ "use-item" → t ≠ "level-up" →
       formatEvolutionDetail { emptyEvoDetail with trigger := some t } =
         titleCaseSlug t) ∧
    (∀ d : EvoDetail, formatEvolutionDetail d ≠ "" →
      edgeHow [d] = formatEvolutionDetail d) ∧
    (∀ d1 d2 : EvoDetail,
      formatEvolutionDetail d1 ≠ "" → formatEvolutionDetail d2 ≠ "" →
      edgeHow [d1, d2] =
        formatEvolutionDetail d1 ++ " / " ++ formatEvolutionDetail d2) ∧
    collectEvolutionNodes bulbaChain =
      (["bulbasaur", "ivysaur", "venusaur"],
       [⟨"bulbasaur", "ivysaur", "Level 16"⟩,
        ⟨"ivysaur", "venusaur", "Level 32"⟩]) := by
  refine ⟨⟨rfl, rfl, rfl⟩, ⟨rfl, rfl, rfl, ?_⟩, ?_, ?_, rfl⟩
  · intro t ht h1 h2 h3
    simp [formatEvolutionDetail, evoParts, emptyEvoDetail, ht, h1, h2, h3]
  · intro d h
    simp only [edgeHow, List.map_cons, List.map_nil]
    rw [List.filter_cons_of_pos (by simpa using h), List.filter_nil,
      intercalate_single, if_neg h]
  · intro d1 d2 h1 h2
    simp only [edgeHow, List.map_cons, List.map_nil]
    rw [List.filter_cons_of_pos (by simpa using h1),
      List.filter_cons_of_pos (by simpa using h2), List.filter_nil,
      intercalate_pair,
      if_neg (str_append_ne_empty _ _ (str_append_ne_empty _ _ h1))]

/-- C7 counterexample: on an edge carrying two detail records (level 16;
trigger trade) the source labels the edge `"Level 16 / Trade"` — the
records are joined with a slash — while the claim's bullet-separator join
of the formatted conditions would be `"Level 16 • Trade"`. -/
theorem claim_C7_counterexample :
    (collectEvolutionNodes exChain).2 =
      [⟨"a", "b", "Level 16 / Trade"⟩] ∧
    bulletJoinedLabel [exDetailLevel, exDetailTrade] = "Level 16 • Trade" ∧
    (collectEvolutionNodes exChain).2 ≠
      [⟨"a", "b", bulletJoinedLabel [exDetailLevel, exDetailTrade]⟩] := by
  refine ⟨rfl, rfl, ?_⟩
  decide

/-- Witness for C7: the slash-join clause and the generic-trigger clause
applied at concrete details. -/
theorem claim_C7_witness :
    (formatEvolutionDetail exDetailLevel ≠ "" ∧
     formatEvolutionDetail exDetailTrade ≠ "" ∧
     edgeHow [exDetailLevel, exDetailTrade] =
       formatEvolutionDetail exDetailLevel ++ " / " ++
         formatEvolutionDetail exDetailTrade) ∧
    formatEvolutionDetail { emptyEvoDetail with trigger := some "shed" } =
      titleCaseSlug "shed" :=
  ⟨⟨by decide, by decide,
    claim_C7.2.2.2.1 exDetailLevel exDetailTrade (by decide) (by decide)⟩,
   claim_C7.2.1.2.2.2 "shed" (by decide) (by decide) (by decide) (by decide)⟩

/-! ## Claims C2 and C10 — resolver refinement and cache invariant -/

theorem fetchFresh_ok (w : ApiUrl → NetResult) (u : ApiUrl)
    (store : List (ApiUrl × Json))
    (h : ∀ u' j, alookup u' store = some j → truthy j = true →
      w u' = NetResult.success j) :
    (fetchFresh w u store).1 = jsonUp w u ∧
    (∀ u' j, alookup u' (fetchFresh w u store).2.1 = some j →
      truthy j = true → w u' = NetResult.success j) := by
  unfold fetchFresh
  cases hw : w u with
  | success d =>
      refine ⟨by simp [jsonUp, hw], ?_⟩
      intro u' j hj htr
      by_cases he : u' = u
      · subst he
        rw [alookup_aset_self] at hj
        injection hj with hj
        exact hj ▸ hw
      · rw [alookup_aset_ne _ _ (fun hx => he hx.symm)] at hj
        exact h u' j hj htr
  | failStatus => exact ⟨by simp [jsonUp, hw], h⟩
  | failThrow => exact ⟨by simp [jsonUp, hw], h⟩

theorem fetchJsonOrNull_ok (w : ApiUrl → NetResult) (u : ApiUrl)
    (store : List (ApiUrl × Json))
    (h : ∀ u' j, alookup u' store = some j → truthy j = true →
      w u' = NetResult.success j) :
    (fetchJsonOrNull w u store).1 = jsonUp w u ∧
    (∀ u' j, alookup u' (fetchJsonOrNull w u store).2.1 = some j →
      truthy j = true → w u' = NetResult.success j) := by
  cases hc : alookup u store with
  | none =>
      simp only [fetchJsonOrNull, hc]
      exact fetchFresh_ok w u store h
  | some v =>
      simp only [fetchJsonOrNull, hc]
      cases ht : truthy v with
      | false =>
          rw [if_neg (by simp [ht])]
          exact fetchFresh_ok w u store h
      | true =>
          rw [if_pos rfl]
          refine ⟨?_, fun u' j hj htr => h u' j hj htr⟩
          have hv := h u v hc ht
          simp [jsonUp, hv]

theorem pokemonExists_ok (w : ApiUrl → NetResult) (n : String) (st : SmartSt)
    (h : Consistent w st) :
    (pokemonExists w n st).1 = existsUp w n ∧
    Consistent w (pokemonExists w n st).2.1 ∧
    ((pokemonExists w n st).1 = true →
      alookup n ((pokemonExists w n st).2.1).pokemonCache =
        some (jsonUp w (ApiUrl.pokemon n))) := by
  unfold Consistent at h
  obtain ⟨hst, hsp, hex, hpk, hlk⟩ := h
  cases hc : alookup n st.pokemonExistsCache with
  | some b =>
      simp only [pokemonExists, hc]
      refine ⟨hex n b hc, ⟨hst, hsp, hex, hpk, hlk⟩, ?_⟩
      intro hb
      have hsome := hlk n (hb ▸ hc)
      obtain ⟨j, hj⟩ := Option.isSome_iff_exists.mp hsome
      have hj' := hpk n j hj
      rw [hj, hj'.1]
  | none =>
      obtain ⟨hf1, hf2⟩ := fetchJsonOrNull_ok w (ApiUrl.pokemon n) st.store hst
      simp only [pokemonExists, hc]
      refine ⟨?_, ⟨hf2, hsp, ?_, ?_, ?_⟩, ?_⟩
      · rw [hf1]
        rfl
      · -- exists-cache consistency
        intro n' b hb
        by_cases he : n' = n
        · subst he
          rw [alookup_aset_self] at hb
          injection hb with hb
          rw [← hb, hf1]
          rfl
        · rw [alookup_aset_ne _ _ (fun hx => he hx.symm)] at hb
          exact hex n' b hb
      · -- pokemon-cache consistency
        intro n' j hj
        by_cases hcond : (truthy (fetchJsonOrNull w (ApiUrl.pokemon n)
            st.store).1 &&
            (alookup n st.pokemonCache).isNone) = true
        · rw [if_pos hcond] at hj
          by_cases he : n' = n
          · subst he
            rw [alookup_aset_self] at hj
            injection hj with hj
            subst hj
            exact ⟨hf1, (Bool.and_eq_true _ _ ▸ hcond).1⟩
          · rw [alookup_aset_ne _ _ (fun hx => he hx.symm)] at hj
            exact hpk n' j hj
        · rw [if_neg hcond] at hj
          exact hpk n' j hj
      · -- link invariant
        intro n' hb
        by_cases he : n' = n
        · subst he
          rw [alookup_aset_self] at hb
          injection hb with hb
          by_cases hnone : (alookup n' st.pokemonCache).isNone = true
          · rw [if_pos (by simp [hb, hnone])]
            rw [alookup_aset_self]
            rfl
          · have hsome : (alookup n' st.pokemonCache).isSome = true := by
              cases hopt : alookup n' st.pokemonCache
              · exact absurd (by rw [hopt]; rfl) hnone
              · rfl
            by_cases hcond : (truthy (fetchJsonOrNull w (ApiUrl.pokemon n')
                st.store).1 && (alookup n' st.pokemonCache).isNone) = true
            · rw [if_pos hcond, alookup_aset_self]
              rfl
            · rw [if_neg hcond]
              exact hsome
        · rw [alookup_aset_ne _ _ (fun hx => he hx.symm)] at hb
          have hsome := hlk n' hb
          by_cases hcond : (truthy (fetchJsonOrNull w (ApiUrl.pokemon n)
              st.store).1 && (alookup n st.pokemonCache).isNone) = true
          · rw [if_pos hcond, alookup_aset_ne _ _ (fun hx => he hx.symm)]
            exact hsome
          · rw [if_neg hcond]
            exact hsome
      · -- a successful probe leaves the payload in the cache
        intro hok
        by_cases hnone : (alookup n st.pokemonCache).isNone = true
        · rw [if_pos (by simp [hok, hnone]), alookup_aset_self, hf1]
        · have hsome : (alookup n st.pokemonCache).isSome = true := by
            cases hopt : alookup n st.pokemonCache
            · exact absurd (by rw [hopt]; rfl) hnone
            · rfl
          obtain ⟨j, hj⟩ := Option.isSome_iff_exists.mp hsome
          rw [if_neg (fun hcond => hnone (Bool.and_eq_true _ _ ▸ hcond).2),
            hj, (hpk n j hj).1]

theorem getDefault_ok (w : ApiUrl → NetResult) (s : String) (st : SmartSt)
    (h : Consistent w st) :
    (getDefaultPokemonNameFromSpecies w s st).1 = defaultUp w s ∧
    Consistent w (getDefaultPokemonNameFromSpecies w s st).2.1 := by
  unfold Consistent at h
  obtain ⟨hst, hsp, hex, hpk, hlk⟩ := h
  cases hc : alookup s st.speciesDefaultPokemonCache with
  | some d =>
      simp only [getDefaultPokemonNameFromSpecies, hc]
      exact ⟨hsp s d hc, hst, hsp, hex, hpk, hlk⟩
  | none =>
      obtain ⟨hf1, hf2⟩ := fetchJsonOrNull_ok w (ApiUrl.species s) st.store hst
      simp only [getDefaultPokemonNameFromSpecies, hc]
      constructor
      · rw [hf1]
        rfl
      · refine ⟨hf2, ?_, hex, hpk, hlk⟩
        intro s' d hd
        by_cases he : s' = s
        · subst he
          rw [alookup_aset_self] at hd
          injection hd with hd
          rw [← hd, hf1]
          rfl
        · rw [alookup_aset_ne _ _ (fun hx => he hx.symm)] at hd
          exact hsp s' d hd

theorem smartRest_ok (w : ApiUrl → NetResult) (s d : String) (st : SmartSt)
    (tr : List ApiUrl) (h : Consistent w st) :
    (smartRest w s d st tr).1 = resolveFallback w s d ∧
    Consistent w (smartRest w s d st tr).2.1 := by
  obtain ⟨hp1, hp2, hp3⟩ := pokemonExists_ok w d st h
  simp only [smartRest]
  cases hb : (pokemonExists w d st).1 with
  | true =>
      rw [if_pos rfl]
      have hexd : existsUp w d = true := hp1.symm.trans hb
      exact ⟨by simp [mapGet, hp3 hb, resolveFallback, hexd], hp2⟩
  | false =>
      rw [if_neg (by simp)]
      obtain ⟨hq1, hq2, hq3⟩ := pokemonExists_ok w s _ hp2
      have hexd : existsUp w d = false := hp1.symm.trans hb
      cases hb2 : (pokemonExists w s (pokemonExists w d st).2.1).1 with
      | true =>
          rw [if_pos rfl]
          have hexs : existsUp w s = true := hq1.symm.trans hb2
          exact ⟨by simp [mapGet, hq3 hb2, resolveFallback, hexd, hexs], hq2⟩
      | false =>
          rw [if_neg (by simp)]
          have hexs : existsUp w s = false := hq1.symm.trans hb2
          exact ⟨by simp [resolveFallback, hexd, hexs], hq2⟩

/-- C2, confirmed.  From any state whose caches are consistent with the
upstream world (the empty process-start state in particular),
`getPokemonDataSmart` returns exactly what the claim's resolution order
prescribes (`resolveSpecLevel`): the `"<default>-<suffix>"` entity when
the display context has a regional suffix and that entity exists, else
the default-variety entity if it exists, else the species name as a
directly fetchable entity, else null — and it leaves the caches
consistent.  In particular `"pikachu"` under the non-regional
`"national"` context resolves to the entity named `"pikachu"`, and under
the `"updated-alola"` context (regional suffix `alola`), where
`"pikachu-alola"` does not exist upstream, resolution falls back to
`"pikachu"`. -/
theorem claim_C2 :
    (∀ (w : ApiUrl → NetResult) (s dex : String) (st : SmartSt),
      Consistent w st →
      (getPokemonDataSmart w s dex st).1 = resolveSpecLevel w s dex ∧
      Consistent w (getPokemonDataSmart w s dex st).2.1) ∧
    (getPokemonDataSmart pikaWorld "pikachu" "national" emptySmart).1 =
      JsRes.val pikaJson ∧
    (getPokemonDataSmart pikaWorld "pikachu" "updated-alola" emptySmart).1 =
      JsRes.val pikaJson := by
  refine ⟨?_, rfl, rfl⟩
  intro w s dex st hcons
  obtain ⟨hd1, hd2⟩ := getDefault_ok w s st hcons
  cases hsfx : regionSuffixForDex dex with
  | none =>
      simp only [getPokemonDataSmart, resolveSpecLevel, hsfx]
      obtain ⟨h1, h2⟩ := smartRest_ok w s
        (getDefaultPokemonNameFromSpecies w s st).1
        (getDefaultPokemonNameFromSpecies w s st).2.1
        (getDefaultPokemonNameFromSpecies w s st).2.2 hd2
      rw [← hd1]
      exact ⟨h1, h2⟩
  | some sfx =>
      simp only [getPokemonDataSmart, resolveSpecLevel, hsfx]
      rw [← hd1]
      obtain ⟨hp1, hp2, hp3⟩ := pokemonExists_ok w
        ((getDefaultPokemonNameFromSpecies w s st).1 ++ "-" ++ sfx)
        (getDefaultPokemonNameFromSpecies w s st).2.1 hd2
      cases hb : (pokemonExists w
          ((getDefaultPokemonNameFromSpecies w s st).1 ++ "-" ++ sfx)
          (getDefaultPokemonNameFromSpecies w s st).2.1).1 with
      | true =>
          rw [if_pos rfl]
          have hex : existsUp w
              ((getDefaultPokemonNameFromSpecies w s st).1 ++ "-" ++ sfx) =
              true := hp1.symm.trans hb
          exact ⟨by simp [mapGet, hp3 hb, hex], hp2⟩
      | false =>
          rw [if_neg (by simp)]
          have hex : existsUp w
              ((getDefaultPokemonNameFromSpecies w s st).1 ++ "-" ++ sfx) =
              false := hp1.symm.trans hb
          obtain ⟨h1, h2⟩ := smartRest_ok w s
            (getDefaultPokemonNameFromSpecies w s st).1
            (pokemonExists w
              ((getDefaultPokemonNameFromSpecies w s st).1 ++ "-" ++ sfx)
              (getDefaultPokemonNameFromSpecies w s st).2.1).2.1
            ((getDefaultPokemonNameFromSpecies w s st).2.2 ++
              (pokemonExists w
                ((getDefaultPokemonNameFromSpecies w s st).1 ++ "-" ++ sfx)
                (getDefaultPokemonNameFromSpecies w s st).2.1).2.2) hp2
          rw [if_neg (by simp [hex])]
          exact ⟨h1, h2⟩

theorem consistent_empty (w : ApiUrl → NetResult) : Consistent w emptySmart :=
  ⟨fun u j hj => by simp [emptySmart, alookup] at hj,
   fun s d hd => by simp [emptySmart, alookup] at hd,
   fun n b hb => by simp [emptySmart, alookup] at hb,
   fun n j hj => by simp [emptySmart, alookup] at hj,
   fun n hb => by simp [emptySmart, alookup] at hb⟩

/-- Witness for C2: the refinement theorem applied at the concrete pikachu
world from the (consistent) empty state. -/
theorem claim_C2_witness :
    Consistent pikaWorld emptySmart ∧
    (getPokemonDataSmart pikaWorld "pikachu" "updated-alola" emptySmart).1 =
      resolveSpecLevel pikaWorld "pikachu" "updated-alola" :=
  ⟨consistent_empty pikaWorld,
   (claim_C2.1 pikaWorld "pikachu" "updated-alola" emptySmart
     (consistent_empty pikaWorld)).1⟩

theorem pokemonExists_inv (w : ApiUrl → NetResult) (n : String) (st : SmartSt)
    (h : PokeInv st) :
    PokeInv (pokemonExists w n st).2.1 ∧
    ((pokemonExists w n st).1 = true →
      ∃ j, alookup n ((pokemonExists w n st).2.1).pokemonCache = some j ∧
        truthy j = true) := by
  unfold PokeInv at h
  obtain ⟨hpk, hlk⟩ := h
  cases hc : alookup n st.pokemonExistsCache with
  | some b =>
      simp only [pokemonExists, hc]
      refine ⟨⟨hpk, hlk⟩, ?_⟩
      intro hb
      obtain ⟨j, hj⟩ := Option.isSome_iff_exists.mp (hlk n (hb ▸ hc))
      exact ⟨j, hj, hpk n j hj⟩
  | none =>
      simp only [pokemonExists, hc]
      refine ⟨⟨?_, ?_⟩, ?_⟩
      · intro n' j hj
        by_cases hcond : (truthy (fetchJsonOrNull w (ApiUrl.pokemon n)
            st.store).1 && (alookup n st.pokemonCache).isNone) = true
        · rw [if_pos hcond] at hj
          by_cases he : n' = n
          · subst he
            rw [alookup_aset_self] at hj
            injection hj with hj
            subst hj
            exact (Bool.and_eq_true _ _ ▸ hcond).1
          · rw [alookup_aset_ne _ _ (fun hx => he hx.symm)] at hj
            exact hpk n' j hj
        · rw [if_neg hcond] at hj
          exact hpk n' j hj
      · intro n' hb
        by_cases he : n' = n
        · subst he
          rw [alookup_aset_self] at hb
          injection hb with hb
          by_cases hnone : (alookup n' st.pokemonCache).isNone = true
          · rw [if_pos (by simp [hb, hnone])]
            rw [alookup_aset_self]
            rfl
          · have hsome : (alookup n' st.pokemonCache).isSome = true := by
              cases hopt : alookup n' st.pokemonCache
              · exact absurd (by rw [hopt]; rfl) hnone
              · rfl
            by_cases hcond : (truthy (fetchJsonOrNull w (ApiUrl.pokemon n')
                st.store).1 && (alookup n' st.pokemonCache).isNone) = true
            · rw [if_pos hcond, alookup_aset_self]
              rfl
            · rw [if_neg hcond]
              exact hsome
        · rw [alookup_aset_ne _ _ (fun hx => he hx.symm)] at hb
          have hsome := hlk n' hb
          by_cases hcond : (truthy (fetchJsonOrNull w (ApiUrl.pokemon n)
              st.store).1 && (alookup n st.pokemonCache).isNone) = true
          · rw [if_pos hcond, alookup_aset_ne _ _ (fun hx => he hx.symm)]
            exact hsome
          · rw [if_neg hcond]
            exact hsome
      · intro hok
        by_cases hnone : (alookup n st.pokemonCache).isNone = true
        · rw [if_pos (by simp [hok, hnone]), alookup_aset_self]
          exact ⟨_, rfl, hok⟩
        · have hsome : (alookup n st.pokemonCache).isSome = true := by
            cases hopt : alookup n st.pokemonCache
            · exact absurd (by rw [hopt]; rfl) hnone
            · rfl
          obtain ⟨j, hj⟩ := Option.isSome_iff_exists.mp hsome
          rw [if_neg (fun hcond => hnone (Bool.and_eq_true _ _ ▸ hcond).2), hj]
          exact ⟨j, rfl, hpk n j hj⟩

theorem smartRest_inv (w : ApiUrl → NetResult) (s d : String) (st : SmartSt)
    (tr : List ApiUrl) (h : PokeInv st) :
    PokeInv (smartRest w s d st tr).2.1 ∧
    (smartRest w s d st tr).1 ≠ JsRes.undef := by
  obtain ⟨hp1, hp2⟩ := pokemonExists_inv w d st h
  simp only [smartRest]
  cases hb : (pokemonExists w d st).1 with
  | true =>
      rw [if_pos rfl]
      obtain ⟨j, hj, _⟩ := hp2 hb
      exact ⟨hp1, by simp [mapGet, hj]⟩
  | false =>
      rw [if_neg (by simp)]
      obtain ⟨hq1, hq2⟩ := pokemonExists_inv w s _ hp1
      cases hb2 : (pokemonExists w s (pokemonExists w d st).2.1).1 with
      | true =>
          rw [if_pos rfl]
          obtain ⟨j, hj, _⟩ := hq2 hb2
          exact ⟨hq1, by simp [mapGet, hj]⟩
      | false =>
          rw [if_neg (by simp)]
          exact ⟨hq1, by simp⟩

/-- C10, confirmed.  The invariant: whenever `pokemonExistsCache` maps a
name to `true`, `pokemonCache` holds a truthy (non-null) payload under the
same name.  It is kept by every operation that touches these maps —
`pokemonExists` (which also leaves the probed payload in place after a
successful probe) and the guarded `if (data) pokemonCache.set(…)` writes —
and consequently `getPokemonDataSmart` never returns `undefined`: each of
its `pokemonCache.get` reads is guarded by a probe that returned true. -/
theorem claim_C10 :
    (∀ st : SmartSt, PokeInv st → ∀ n : String,
      alookup n st.pokemonExistsCache = some true →
      ∃ j, alookup n st.pokemonCache = some j ∧ truthy j = true) ∧
    (∀ (w : ApiUrl → NetResult) (n : String) (st : SmartSt), PokeInv st →
      PokeInv (pokemonExists w n st).2.1 ∧
      ((pokemonExists w n st).1 = true →
        ∃ j, alookup n ((pokemonExists w n st).2.1).pokemonCache = some j ∧
          truthy j = true)) ∧
    (∀ (n : String) (data : Json) (st : SmartSt), PokeInv st →
      PokeInv (setPokemonIfTruthy n data st)) ∧
    (∀ (w : ApiUrl → NetResult) (s dex : String) (st : SmartSt), PokeInv st →
      PokeInv (getPokemonDataSmart w s dex st).2.1 ∧
      (getPokemonDataSmart w s dex st).1 ≠ JsRes.undef) := by
  refine ⟨?_, fun w n st h => pokemonExists_inv w n st h, ?_, ?_⟩
  · intro st h n hb
    obtain ⟨j, hj⟩ := Option.isSome_iff_exists.mp (h.2 n hb)
    exact ⟨j, hj, h.1 n j hj⟩
  · intro n data st h
    obtain ⟨hpk, hlk⟩ := h
    unfold setPokemonIfTruthy
    by_cases ht : truthy data = true
    · rw [if_pos ht]
      refine ⟨?_, ?_⟩
      · intro n' j hj
        by_cases he : n' = n
        · subst he
          rw [alookup_aset_self] at hj
          injection hj with hj
          subst hj
          exact ht
        · rw [alookup_aset_ne _ _ (fun hx => he hx.symm)] at hj
          exact hpk n' j hj
      · intro n' hb
        have hv := hlk n' hb
        by_cases he : n' = n
        · subst he
          rw [alookup_aset_self]
          rfl
        · rw [alookup_aset_ne _ _ (fun hx => he hx.symm)]
          exact hv
    · rw [if_neg ht]
      exact ⟨hpk, hlk⟩
  · intro w s dex st h
    have hframe :
        ((getDefaultPokemonNameFromSpecies w s st).2.1).pokemonCache =
          st.pokemonCache ∧
        ((getDefaultPokemonNameFromSpecies w s st).2.1).pokemonExistsCache =
          st.pokemonExistsCache := by
      cases hc : alookup s st.speciesDefaultPokemonCache <;>
        simp [getDefaultPokemonNameFromSpecies, hc]
    have h0 : PokeInv (getDefaultPokemonNameFromSpecies w s st).2.1 := by
      refine ⟨?_, ?_⟩
      · intro n j hj
        rw [hframe.1] at hj
        exact h.1 n j hj
      · intro n hb
        rw [hframe.2] at hb
        rw [hframe.1]
        exact h.2 n hb
    cases hsfx : regionSuffixForDex dex with
    | none =>
        simp only [getPokemonDataSmart, hsfx]
        exact smartRest_inv w s _ _ _ h0
    | some sfx =>
        simp only [getPokemonDataSmart, hsfx]
        obtain ⟨hp1, hp2⟩ := pokemonExists_inv w
          ((getDefaultPokemonNameFromSpecies w s st).1 ++ "-" ++ sfx)
          (getDefaultPokemonNameFromSpecies w s st).2.1 h0
        cases hb : (pokemonExists w
            ((getDefaultPokemonNameFromSpecies w s st).1 ++ "-" ++ sfx)
            (getDefaultPokemonNameFromSpecies w s st).2.1).1 with
        | true =>
            rw [if_pos rfl]
            obtain ⟨j, hj, _⟩ := hp2 hb
            exact ⟨hp1, by simp [mapGet, hj]⟩
        | false =>
            rw [if_neg (by simp)]
            exact smartRest_inv w s _ _ _ hp1

theorem pokeInv_empty : PokeInv emptySmart :=
  ⟨fun n j hj => by simp [emptySmart, alookup] at hj,
   fun n hb => by simp [emptySmart, alookup] at hb⟩

/-- Witness for C10: the invariant holds at the empty state, and the
resolver applied there at the concrete pikachu world does not return
`undefined`. -/
theorem claim_C10_witness :
    PokeInv emptySmart ∧
    (getPokemonDataSmart pikaWorld "pikachu" "national" emptySmart).1 ≠
      JsRes.undef :=
  ⟨pokeInv_empty,
   (claim_C10.2.2.2 pikaWorld "pikachu" "national" emptySmart pokeInv_empty).2⟩

end ResearchDex
